import Mathlib

/-!
Verification development for the BananaPod request-orchestration layer.

The definitions below are shallow embeddings of the repository's source:
* `src/server/gemini.js` (`GeminiRunner.runWithFailover`,
  `GeminiRunner.generateImageFromText`) and
  `src/services/ai/registry.ts` (`GeminiAiService.runWithFailover`,
  `buildAggregateError`, `GeminiAiService.generateImageFromText`);
* `src/server/auth.js` (session tokens, platform registry);
* `src/server/monitor.js` (`GeminiMonitor`);
* the HTTP route dispatch of the server entry file.

JavaScript strings are modelled as Lean `String`s (or as lists of byte
codes where the source works at byte level), JS numbers used as integer
counters as `Nat`/`Int`, thrown errors as `Except`, and network calls as
explicit oracle functions passed in as parameters.
-/

namespace BananaPod

/-! ### Platforms and the failover runner

`Platform` embeds the `{id, baseUrl, model, apiKey}` records read by
`server/config.js` and consumed by `GeminiRunner`. -/

structure Platform where
  id : String
  baseUrl : String
  model : String
  apiKey : String
deriving DecidableEq, Repr, Inhabited

/-- The rotation order of one failover run: the loop in
`runWithFailover` visits `platforms[(startIndex + i) % count]`
for `i = 0, 1, ..., count - 1`. -/
def failoverOrder (platforms : List Platform) (start : Nat) : List Platform :=
  (List.range platforms.length).map
    (fun i => platforms.getD ((start + i) % platforms.length) default)

/-- Observable outcome of the sequential attempt loop inside
`runWithFailover`: the produced result (if any attempt succeeded), the
platforms on which `attemptFn` was actually invoked, in invocation
order, and the `{platformId, error}` failure records, in order. -/
structure RunTrace (A : Type) where
  result : Option A
  attempted : List Platform
  failures : List (Platform × String)
deriving Repr

/-- The body of the `for` loop of `runWithFailover` (both the
`gemini.js` and the `registry.ts` version), over an already rotated
platform list: try each platform once, stop at the first success,
record each failure. -/
def runSeq {A : Type} (attempt : Platform → Except String A) :
    List Platform → RunTrace A
  | [] => ⟨none, [], []⟩
  | p :: rest =>
    match attempt p with
    | .ok r => ⟨some r, [p], []⟩
    | .error e =>
      let o := runSeq attempt rest
      ⟨o.result, p :: o.attempted, (p, e) :: o.failures⟩

/-- `buildAggregateError` from `registry.ts` (the same message is built
inline at the end of `runWithFailover` in `gemini.js`):
`` `${operation} failed on all platforms: ${details}` `` where
`details` joins `"[platformId] message"` with `" | "`. -/
def buildAggregateError (operation : String) (errors : List (String × String)) : String :=
  operation ++ " failed on all platforms: " ++
    String.intercalate " | " (errors.map (fun e => "[" ++ e.1 ++ "] " ++ e.2))

/-- `runWithFailover(operation, runner, startPlatformIndex)`: rotate
through the platforms starting at `start`, return the first success,
and if every platform fails throw the aggregate error. -/
def runWithFailover {A : Type} (operation : String)
    (attempt : Platform → Except String A)
    (platforms : List Platform) (start : Nat) : Except String A :=
  let o := runSeq attempt (failoverOrder platforms start)
  match o.result with
  | some r => .ok r
  | none => .error (buildAggregateError operation (o.failures.map (fun f => (f.1.id, f.2))))

/-! Basic lemmas about `runSeq` and `failoverOrder`. -/

theorem runSeq_spec {A : Type} (attempt : Platform → Except String A) (l : List Platform) :
    ∃ k, k ≤ l.length ∧ (runSeq attempt l).attempted = l.take k ∧
      (∀ q ∈ (runSeq attempt l).attempted.dropLast, ∃ e, attempt q = .error e) ∧
      ((runSeq attempt l).result = none →
        k = l.length ∧ ∀ q ∈ l, ∃ e, attempt q = .error e) ∧
      (∀ r, (runSeq attempt l).result = some r →
        ∃ p, (runSeq attempt l).attempted.getLast? = some p ∧ attempt p = .ok r) := by
  induction l with
  | nil =>
    refine ⟨0, by simp, by simp [runSeq], by simp [runSeq], ?_, ?_⟩
    · intro _; exact ⟨rfl, by simp⟩
    · intro r h; simp [runSeq] at h
  | cons p rest ih =>
    cases hap : attempt p with
    | ok r =>
      refine ⟨1, by simp, ?_, ?_, ?_, ?_⟩
      · simp [runSeq, hap]
      · simp [runSeq, hap]
      · intro h; simp [runSeq, hap] at h
      · intro r' h
        simp only [runSeq, hap] at h ⊢
        refine ⟨p, by simp, ?_⟩
        simp at h
        rw [h] at hap
        exact hap
    | error e =>
      obtain ⟨k, hk, hatt, hdrop, hnone, hsome⟩ := ih
      refine ⟨k + 1, by simpa using hk, ?_, ?_, ?_, ?_⟩
      · simp [runSeq, hap, hatt]
      · intro q hq
        simp only [runSeq, hap] at hq
        rcases h0 : (runSeq attempt rest).attempted with _ | ⟨a, t⟩
        · simp [h0] at hq
        · rw [h0] at hq
          rw [List.dropLast_cons₂] at hq
          rw [List.mem_cons] at hq
          rcases hq with rfl | hq
          · exact ⟨e, hap⟩
          · exact hdrop q (by rw [h0]; exact hq)
      · intro h
        simp only [runSeq, hap] at h
        obtain ⟨hk', hall⟩ := hnone h
        refine ⟨by simp [hk'], ?_⟩
        intro q hq
        rw [List.mem_cons] at hq
        rcases hq with rfl | hq
        · exact ⟨e, hap⟩
        · exact hall q hq
      · intro r h
        simp only [runSeq, hap] at h ⊢
        obtain ⟨p', hlast, hok⟩ := hsome r h
        refine ⟨p', ?_, hok⟩
        rcases h0 : (runSeq attempt rest).attempted with _ | ⟨a, t⟩
        · rw [h0] at hlast; simp at hlast
        · rw [h0] at hlast
          rw [List.getLast?_cons_cons]
          exact hlast

theorem runSeq_head {A : Type} (attempt : Platform → Except String A)
    (p : Platform) (rest : List Platform) :
    (runSeq attempt (p :: rest)).attempted.head? = some p := by
  cases hap : attempt p <;> simp [runSeq, hap]

theorem failoverOrder_length (platforms : List Platform) (start : Nat) :
    (failoverOrder platforms start).length = platforms.length := by
  simp [failoverOrder]

theorem failoverOrder_mem {platforms : List Platform} {start : Nat} {q : Platform}
    (hq : q ∈ failoverOrder platforms start) : q ∈ platforms := by
  simp only [failoverOrder, List.mem_map, List.mem_range] at hq
  obtain ⟨i, hi, rfl⟩ := hq
  have hlen : 0 < platforms.length := by omega
  have hidx : (start + i) % platforms.length < platforms.length := Nat.mod_lt _ hlen
  rw [List.getD_eq_getElem _ _ hidx]
  exact List.getElem_mem hidx

theorem failoverOrder_nodup {platforms : List Platform} (start : Nat)
    (h : platforms.Nodup) : (failoverOrder platforms start).Nodup := by
  unfold failoverOrder
  refine List.Nodup.map_on ?_ (List.nodup_range _)
  intro i hi j hj heq
  simp only [List.mem_range] at hi hj
  have hlen : 0 < platforms.length := by omega
  have h1 : (start + i) % platforms.length < platforms.length := Nat.mod_lt _ hlen
  have h2 : (start + j) % platforms.length < platforms.length := Nat.mod_lt _ hlen
  rw [List.getD_eq_getElem _ _ h1, List.getD_eq_getElem _ _ h2] at heq
  have hmod : (start + i) % platforms.length = (start + j) % platforms.length :=
    (List.Nodup.getElem_inj_iff h).mp heq
  have hij : i % platforms.length = j % platforms.length :=
    Nat.ModEq.add_left_cancel' start hmod
  rwa [Nat.mod_eq_of_lt hi, Nat.mod_eq_of_lt hj] at hij

theorem failoverOrder_ids_nodup {platforms : List Platform} (start : Nat)
    (h : (platforms.map Platform.id).Nodup) :
    ((failoverOrder platforms start).map Platform.id).Nodup := by
  rw [failoverOrder, List.map_map]
  refine List.Nodup.map_on ?_ (List.nodup_range _)
  intro i hi j hj heq
  simp only [List.mem_range] at hi hj
  have hlen : 0 < platforms.length := by omega
  have h1 : (start + i) % platforms.length < platforms.length := Nat.mod_lt _ hlen
  have h2 : (start + j) % platforms.length < platforms.length := Nat.mod_lt _ hlen
  simp only [Function.comp_apply] at heq
  rw [List.getD_eq_getElem _ _ h1, List.getD_eq_getElem _ _ h2] at heq
  have h1m : (start + i) % platforms.length < (platforms.map Platform.id).length := by
    simpa using h1
  have h2m : (start + j) % platforms.length < (platforms.map Platform.id).length := by
    simpa using h2
  have heq' : (platforms.map Platform.id)[(start + i) % platforms.length] =
      (platforms.map Platform.id)[(start + j) % platforms.length] := by
    simpa [List.getElem_map] using heq
  have hmod : (start + i) % platforms.length = (start + j) % platforms.length :=
    (List.Nodup.getElem_inj_iff h).mp heq'
  have hij : i % platforms.length = j % platforms.length :=
    Nat.ModEq.add_left_cancel' start hmod
  rwa [Nat.mod_eq_of_lt hi, Nat.mod_eq_of_lt hj] at hij

theorem runSeq_allfail {A : Type} (attempt : Platform → Except String A)
    (l : List Platform) (h : ∀ p ∈ l, ∃ e, attempt p = .error e) :
    (runSeq attempt l).result = none ∧
    (runSeq attempt l).failures.map Prod.fst = l ∧
    ∀ f ∈ (runSeq attempt l).failures, attempt f.1 = .error f.2 := by
  induction l with
  | nil => simp [runSeq]
  | cons p rest ih =>
    obtain ⟨e, he⟩ := h p (List.mem_cons_self p rest)
    have hrest : ∀ q ∈ rest, ∃ e, attempt q = .error e :=
      fun q hq => h q (List.mem_cons_of_mem p hq)
    obtain ⟨ih1, ih2, ih3⟩ := ih hrest
    refine ⟨by simp [runSeq, he, ih1], by simp [runSeq, he, ih2], ?_⟩
    intro f hf
    simp only [runSeq, he] at hf
    rw [List.mem_cons] at hf
    rcases hf with rfl | hf
    · exact he
    · exact ih3 f hf

/-- C1: a single failover run (`runWithFailover` in `gemini.js` /
`registry.ts`) invokes the attempt function on the platforms at
indexes `(startIndex + i) % count` for `i = 0, ..., count - 1` in that
order (the platforms actually attempted are always the prefix of that
rotation up to and including the first success), invokes each platform
at most once, and returns the first successful attempt's result
immediately, every earlier attempt having failed. -/
theorem runWithFailover_rotation_first_success {A : Type} (operation : String)
    (attempt : Platform → Except String A)
    (platforms : List Platform) (start : Nat) (hne : platforms ≠ []) :
    ∃ k, k ≤ platforms.length ∧
      (runSeq attempt (failoverOrder platforms start)).attempted =
        (List.range k).map (fun i => platforms.getD ((start + i) % platforms.length) default) ∧
      (platforms.Nodup → (runSeq attempt (failoverOrder platforms start)).attempted.Nodup) ∧
      (∀ r, (runSeq attempt (failoverOrder platforms start)).result = some r →
        runWithFailover operation attempt platforms start = .ok r ∧
        ∃ p, (runSeq attempt (failoverOrder platforms start)).attempted.getLast? = some p ∧
          attempt p = .ok r ∧
          ∀ q ∈ (runSeq attempt (failoverOrder platforms start)).attempted.dropLast,
            ∃ e, attempt q = .error e) ∧
      ((runSeq attempt (failoverOrder platforms start)).result = none →
        (runSeq attempt (failoverOrder platforms start)).attempted =
          failoverOrder platforms start) := by
  obtain ⟨k, hk, hatt, hdrop, hnone, hsome⟩ :=
    runSeq_spec attempt (failoverOrder platforms start)
  rw [failoverOrder_length] at hk
  refine ⟨k, hk, ?_, ?_, ?_, ?_⟩
  · rw [hatt, failoverOrder, ← List.map_take, List.take_range, Nat.min_eq_left hk]
  · intro hnd
    rw [hatt]
    exact List.Nodup.sublist (List.take_sublist _ _) (failoverOrder_nodup start hnd)
  · intro r hres
    obtain ⟨p, hlast, hok⟩ := hsome r hres
    refine ⟨?_, p, hlast, hok, hdrop⟩
    simp [runWithFailover, hres]
  · intro hres
    rw [hatt, (hnone hres).1, List.take_length]

/-- C3: when every platform's attempt fails, the failover run raises
exactly one error: the aggregate whose message joins
`"[platformId] message"` with `" | "`, with one entry per attempted
platform in attempt order; when platform ids are distinct every
attempted platform's id occurs exactly once in that entry list. -/
theorem runWithFailover_all_fail {A : Type} (operation : String)
    (attempt : Platform → Except String A)
    (platforms : List Platform) (start : Nat) (hne : platforms ≠ [])
    (hfail : ∀ p ∈ platforms, ∃ e, attempt p = .error e) :
    ∃ fs : List (Platform × String),
      runWithFailover operation attempt platforms start =
        .error (buildAggregateError operation (fs.map (fun f => (f.1.id, f.2)))) ∧
      fs.map Prod.fst = failoverOrder platforms start ∧
      (∀ f ∈ fs, attempt f.1 = .error f.2) ∧
      fs.map (fun f => f.1.id) = (failoverOrder platforms start).map Platform.id ∧
      ((platforms.map Platform.id).Nodup →
        ∀ pid ∈ fs.map (fun f => f.1.id), (fs.map (fun f => f.1.id)).count pid = 1) := by
  have horder : ∀ p ∈ failoverOrder platforms start, ∃ e, attempt p = .error e :=
    fun p hp => hfail p (failoverOrder_mem hp)
  obtain ⟨hres, hmapfst, herr⟩ := runSeq_allfail attempt (failoverOrder platforms start) horder
  refine ⟨(runSeq attempt (failoverOrder platforms start)).failures, ?_, hmapfst, herr, ?_, ?_⟩
  · simp [runWithFailover, hres]
  · have hfun : (fun (f : Platform × String) => f.1.id) = (Platform.id ∘ Prod.fst) := rfl
    rw [hfun, ← List.map_map, hmapfst]
  · intro hnd pid hpid
    have hfun : (fun (f : Platform × String) => f.1.id) = (Platform.id ∘ Prod.fst) := rfl
    have hids : (runSeq attempt (failoverOrder platforms start)).failures.map
        (fun f => f.1.id) = (failoverOrder platforms start).map Platform.id := by
      rw [hfun, ← List.map_map, hmapfst]
    rw [hids] at hpid ⊢
    exact List.count_eq_one_of_mem (failoverOrder_ids_nodup start hnd) hpid

/-- Three concrete platforms used to instantiate the failover theorems. -/
def demoPlatforms : List Platform :=
  [⟨"gemini#1:a/|m", "a/", "m", "k1"⟩,
   ⟨"gemini#2:b/|m", "b/", "m", "k2"⟩,
   ⟨"gemini#3:c/|m", "c/", "m", "k3"⟩]

/-- A concrete attempt function where only the second platform succeeds. -/
def demoAttempt : Platform → Except String Nat :=
  fun p => if p.id = "gemini#2:b/|m" then .ok 7 else .error ("boom " ++ p.id)

/-- A concrete attempt function where every platform fails. -/
def demoAttemptAllFail : Platform → Except String Nat :=
  fun p => .error ("boom " ++ p.id)

/-- Witness instantiating the C1 theorem on three concrete platforms,
start index 2. -/
theorem runWithFailover_rotation_first_success_witness :
    demoPlatforms ≠ [] ∧
    (∃ k, k ≤ demoPlatforms.length ∧
      (runSeq demoAttempt (failoverOrder demoPlatforms 2)).attempted =
        (List.range k).map
          (fun i => demoPlatforms.getD ((2 + i) % demoPlatforms.length) default) ∧
      (demoPlatforms.Nodup → (runSeq demoAttempt (failoverOrder demoPlatforms 2)).attempted.Nodup) ∧
      (∀ r, (runSeq demoAttempt (failoverOrder demoPlatforms 2)).result = some r →
        runWithFailover "editImage" demoAttempt demoPlatforms 2 = .ok r ∧
        ∃ p, (runSeq demoAttempt (failoverOrder demoPlatforms 2)).attempted.getLast? = some p ∧
          demoAttempt p = .ok r ∧
          ∀ q ∈ (runSeq demoAttempt (failoverOrder demoPlatforms 2)).attempted.dropLast,
            ∃ e, demoAttempt q = .error e) ∧
      ((runSeq demoAttempt (failoverOrder demoPlatforms 2)).result = none →
        (runSeq demoAttempt (failoverOrder demoPlatforms 2)).attempted =
          failoverOrder demoPlatforms 2)) :=
  ⟨by decide, runWithFailover_rotation_first_success "editImage" demoAttempt
    demoPlatforms 2 (by decide)⟩

/-- Witness instantiating the C3 theorem: all three platforms fail. -/
theorem runWithFailover_all_fail_witness :
    demoPlatforms ≠ [] ∧
    (∀ p ∈ demoPlatforms, ∃ e, demoAttemptAllFail p = .error e) ∧
    (∃ fs : List (Platform × String),
      runWithFailover "editImage" demoAttemptAllFail demoPlatforms 1 =
        .error (buildAggregateError "editImage" (fs.map (fun f => (f.1.id, f.2)))) ∧
      fs.map Prod.fst = failoverOrder demoPlatforms 1 ∧
      (∀ f ∈ fs, demoAttemptAllFail f.1 = .error f.2) ∧
      fs.map (fun f => f.1.id) = (failoverOrder demoPlatforms 1).map Platform.id ∧
      ((demoPlatforms.map Platform.id).Nodup →
        ∀ pid ∈ fs.map (fun f => f.1.id), (fs.map (fun f => f.1.id)).count pid = 1)) :=
  ⟨by decide, fun p _ => ⟨"boom " ++ p.id, rfl⟩,
    runWithFailover_all_fail "editImage" demoAttemptAllFail demoPlatforms 1
      (by decide) (fun p _ => ⟨"boom " ++ p.id, rfl⟩)⟩

/-! ### Fill-to-target generator (`GeminiAiService.generateImageFromText`,
`src/services/ai/registry.ts`) -/

/-- `GeneratedImage`: `{base64, mimeType}`. -/
structure GeneratedImage where
  base64 : String
  mimeType : String
deriving DecidableEq, Repr, Inhabited

/-- One part of a candidate's content; only `inlineData` (a
`(data, mimeType)` pair when present) matters to
`pickGeneratedImagesFromResponse` in `registry.ts`. -/
structure ResponsePart where
  inlineData : Option (String × String)
deriving DecidableEq, Repr

/-- A `GenerateContentResponse`, reduced to what the registry service
reads: the list of candidates, each reduced to its content parts. -/
abbrev GeminiResponse := List (List ResponsePart)

/-- `pickGeneratedImagesFromResponse` (`registry.ts`): every
`inlineData` part of the first candidate with nonempty `data` and
nonempty `mimeType` yields one image, in part order. -/
def pickGeneratedImagesFromResponse (response : GeminiResponse) : List GeneratedImage :=
  match response.head? with
  | none => []
  | some parts =>
    parts.filterMap (fun part =>
      match part.inlineData with
      | some (data, mime) => if data ≠ "" ∧ mime ≠ "" then some ⟨data, mime⟩ else none
      | none => none)

/-- One fill-to-target attempt with global ordinal `n` (the task body
launched inside the round loop of `generateImageFromText`): run the
failover runner starting at platform index `n % platformCount`, then
take the first image of the response, failing when there is none.
`oracle n p` is the outcome of the upstream call that attempt `n`
would issue on platform `p`. -/
def singleImageTask (oracle : Nat → Platform → Except String GeminiResponse)
    (platforms : List Platform) (n : Nat) : Except String GeneratedImage :=
  match runWithFailover "generateImageFromText" (oracle n) platforms (n % platforms.length) with
  | .error e => .error e
  | .ok resp =>
    match (pickGeneratedImagesFromResponse resp).head? with
    | some img => .ok img
    | none => .error "Gemini response did not include image data."

/-- State of the fill loop: images collected so far, attempts
launched so far, failure messages recorded so far, and a ghost trace
of the rounds launched, each as
`(attemptsBefore, parallel, collectedBefore)`. -/
structure FillState where
  collected : List GeneratedImage
  attempts : Nat
  errors : List String
  rounds : List (Nat × Nat × Nat)
deriving Repr

/-- Initial fill state: `collected = []`, `attempts = 0`. -/
def fillInit : FillState := ⟨[], 0, [], []⟩

/-- Outcomes of one concurrent round of `parallel` tasks launched at
global ordinals `attempts, ..., attempts + parallel - 1`. -/
def roundOutcomes (task : Nat → Except String GeneratedImage)
    (attempts parallel : Nat) : List (Except String GeneratedImage) :=
  (List.range parallel).map (fun idx => task (attempts + idx))

/-- Effect of one round on the fill state: append the successful
images and the failure reasons in task order (the
`Promise.allSettled` loop body), and add `parallel` to `attempts`. -/
def fillStep (task : Nat → Except String GeneratedImage)
    (st : FillState) (parallel : Nat) : FillState :=
  let results := roundOutcomes task st.attempts parallel
  ⟨st.collected ++ results.filterMap Except.toOption,
   st.attempts + parallel,
   st.errors ++ results.filterMap
     (fun r => match r with | .ok _ => none | .error e => some e),
   st.rounds ++ [(st.attempts, parallel, st.collected.length)]⟩

/-- The `while (generatedImages.length < desiredCount)` loop of
`generateImageFromText` (`registry.ts`): each iteration launches
`parallel = min(remaining, desiredCount)` attempts (unless that would
push the total past `maxTotalAttempts`, in which case the loop
breaks). -/
def fillLoop (task : Nat → Except String GeneratedImage)
    (desired maxA : Nat) (st : FillState) : FillState :=
  if h1 : st.collected.length < desired then
    let parallel := min (desired - st.collected.length) desired
    if h2 : maxA < st.attempts + parallel then st
    else fillLoop task desired maxA (fillStep task st parallel)
  else st
termination_by maxA + 1 - st.attempts
decreasing_by
  simp_wf
  simp only [fillStep]
  omega

/-- Default `maxTotalAttempts` (`DEFAULT_FILL_MAX_TOTAL_ATTEMPTS`). -/
def DEFAULT_FILL_MAX_TOTAL_ATTEMPTS : Nat := 40

/-- The effective desired count:
`typeof imageCount === "number" ? Math.max(1, Math.min(4, Math.floor(imageCount))) : 1`.
`imageCount` is modelled as `Option Int`, the integer being the floor
of the JS number when one was supplied. -/
def desiredCountOf (imageCount : Option Int) : Nat :=
  match imageCount with
  | some n => (max 1 (min 4 n)).toNat
  | none => 1

/-- `generateImageFromText` of `registry.ts`, over an abstract
per-ordinal task: clamp the count, validate the attempt ceiling, run
the fill loop from the empty state, and either return the collected
images or throw the aggregate error annotated with the fill ratio.
The surrounding `catch` rewraps any thrown message as
`"Gemini API Error: " + message`. -/
def generateImageFromText (task : Nat → Except String GeneratedImage)
    (imageCount : Option Int) (maxTotalAttempts : Nat) : Except String (List GeneratedImage) :=
  let desiredCount := desiredCountOf imageCount
  if maxTotalAttempts < desiredCount then
    .error "Gemini API Error: Invalid VITE_GEMINI_FILL_MAX_TOTAL_ATTEMPTS; must be a positive integer."
  else
    let res := fillLoop task desiredCount maxTotalAttempts fillInit
    if res.collected.length < desiredCount then
      .error ("Gemini API Error: " ++
        buildAggregateError
          ("generateImageFromText (filled " ++ toString res.collected.length ++ "/" ++
            toString desiredCount ++ ")")
          ((if res.errors = [] then ["unknown error"] else res.errors).map
            (fun e => ("unknown", e))))
    else .ok res.collected

/-- `generateImageFromText` with its tasks instantiated to real
failover runs against `platforms`, as in the source. -/
def generateImageFromTextOracle (oracle : Nat → Platform → Except String GeminiResponse)
    (platforms : List Platform) (imageCount : Option Int)
    (maxTotalAttempts : Nat) : Except String (List GeneratedImage) :=
  generateImageFromText (singleImageTask oracle platforms) imageCount maxTotalAttempts

/-! Equation and invariant lemmas for the fill loop. -/

theorem fillLoop_done (task : Nat → Except String GeneratedImage) (desired maxA : Nat)
    (st : FillState) (h1 : ¬ st.collected.length < desired) :
    fillLoop task desired maxA st = st := by
  rw [fillLoop]
  simp [h1]

theorem fillLoop_break (task : Nat → Except String GeneratedImage) (desired maxA : Nat)
    (st : FillState) (h1 : st.collected.length < desired)
    (h2 : maxA < st.attempts + min (desired - st.collected.length) desired) :
    fillLoop task desired maxA st = st := by
  rw [fillLoop]
  simp only [dif_pos h1]
  simp [h1]
  intro hc
  exfalso
  omega

theorem fillLoop_step (task : Nat → Except String GeneratedImage) (desired maxA : Nat)
    (st : FillState) (h1 : st.collected.length < desired)
    (h2 : ¬ maxA < st.attempts + min (desired - st.collected.length) desired) :
    fillLoop task desired maxA st =
      fillLoop task desired maxA
        (fillStep task st (min (desired - st.collected.length) desired)) := by
  conv_lhs => rw [fillLoop]
  simp [h1]
  intro hc
  exfalso
  omega

theorem fillStep_length_le (task : Nat → Except String GeneratedImage)
    (st : FillState) (parallel : Nat) :
    (fillStep task st parallel).collected.length ≤ st.collected.length + parallel := by
  have h := List.length_filterMap_le Except.toOption (roundOutcomes task st.attempts parallel)
  simp only [roundOutcomes, List.length_map, List.length_range] at h
  simp only [fillStep, roundOutcomes, List.length_append]
  omega

theorem fillLoop_length_le (task : Nat → Except String GeneratedImage)
    (desired maxA : Nat) :
    ∀ st : FillState, st.collected.length ≤ desired →
      (fillLoop task desired maxA st).collected.length ≤ desired := by
  refine fillLoop.induct task desired maxA
    (fun st => st.collected.length ≤ desired →
      (fillLoop task desired maxA st).collected.length ≤ desired) ?_ ?_ ?_
  · intro x h1 par h2 h
    have hp : par = min (desired - x.collected.length) desired := rfl
    rw [hp] at h2
    rw [fillLoop_break task desired maxA x h1 h2]
    exact h
  · intro x h1 par h2 ih h
    have hp : par = min (desired - x.collected.length) desired := rfl
    rw [hp] at h2 ih
    rw [fillLoop_step task desired maxA x h1 h2]
    apply ih
    have := fillStep_length_le task x (min (desired - x.collected.length) desired)
    omega
  · intro x h1 h
    rw [fillLoop_done task desired maxA x h1]
    exact h

theorem fillLoop_exit (task : Nat → Except String GeneratedImage)
    (desired maxA : Nat) :
    ∀ st : FillState,
      (fillLoop task desired maxA st).collected.length < desired →
        maxA < (fillLoop task desired maxA st).attempts +
          min (desired - (fillLoop task desired maxA st).collected.length) desired := by
  refine fillLoop.induct task desired maxA
    (fun st => (fillLoop task desired maxA st).collected.length < desired →
      maxA < (fillLoop task desired maxA st).attempts +
        min (desired - (fillLoop task desired maxA st).collected.length) desired) ?_ ?_ ?_
  · intro x h1 par h2 _
    have hp : par = min (desired - x.collected.length) desired := rfl
    rw [hp] at h2
    rw [fillLoop_break task desired maxA x h1 h2]
    exact h2
  · intro x h1 par h2 ih h
    have hp : par = min (desired - x.collected.length) desired := rfl
    rw [hp] at h2
    rw [fillLoop_step task desired maxA x h1 h2] at h ⊢
    exact ih h
  · intro x h1 h
    rw [fillLoop_done task desired maxA x h1] at h
    exact absurd h h1

/-- The round trace is consecutive from base attempt count `a0`:
each recorded round starts exactly where the previous one ended. -/
def roundsConsec : List (Nat × Nat × Nat) → Nat → Prop
  | [], _ => True
  | r :: rest, a0 => r.1 = a0 ∧ roundsConsec rest (r.1 + r.2.1)

/-- Total number of attempts launched by the recorded rounds. -/
def attemptsOfRounds (rounds : List (Nat × Nat × Nat)) : Nat :=
  (rounds.map (fun r => r.2.1)).sum

theorem roundsConsec_append_singleton :
    ∀ (rounds : List (Nat × Nat × Nat)) (a0 : Nat) (r : Nat × Nat × Nat),
      roundsConsec rounds a0 → r.1 = a0 + attemptsOfRounds rounds →
      roundsConsec (rounds ++ [r]) a0 := by
  intro rounds
  induction rounds with
  | nil =>
    intro a0 r _ hr
    simp only [attemptsOfRounds, List.map_nil, List.sum_nil, Nat.add_zero] at hr
    exact ⟨hr, trivial⟩
  | cons q rest ih =>
    intro a0 r hc hr
    obtain ⟨hq, hrest⟩ := hc
    refine ⟨hq, ih (q.1 + q.2.1) r hrest ?_⟩
    simp only [attemptsOfRounds, List.map_cons, List.sum_cons] at hr ⊢
    omega

/-- Loop invariant for C4: the recorded rounds are consecutive, their
sizes sum to the attempt counter, the counter never exceeds the
ceiling, and every recorded round was launched from a state short of
target, with the size prescribed by the source and staying within the
ceiling. -/
def FillInv (desired maxA : Nat) (st : FillState) : Prop :=
  roundsConsec st.rounds 0 ∧
  attemptsOfRounds st.rounds = st.attempts ∧
  st.attempts ≤ maxA ∧
  ∀ r ∈ st.rounds, r.2.1 = min (desired - r.2.2) desired ∧ r.2.2 < desired ∧
    r.1 + r.2.1 ≤ maxA ∧ 1 ≤ r.2.1

theorem fillLoop_inv (task : Nat → Except String GeneratedImage)
    (desired maxA : Nat) :
    ∀ st : FillState, FillInv desired maxA st →
      FillInv desired maxA (fillLoop task desired maxA st) := by
  refine fillLoop.induct task desired maxA
    (fun st => FillInv desired maxA st →
      FillInv desired maxA (fillLoop task desired maxA st)) ?_ ?_ ?_
  · intro x h1 par h2 h
    have hp : par = min (desired - x.collected.length) desired := rfl
    rw [hp] at h2
    rwa [fillLoop_break task desired maxA x h1 h2]
  · intro x h1 par h2 ih h
    have hp : par = min (desired - x.collected.length) desired := rfl
    rw [hp] at h2 ih
    rw [fillLoop_step task desired maxA x h1 h2]
    apply ih
    obtain ⟨hc, hsum, hle, hall⟩ := h
    simp only [Nat.not_lt] at h2
    refine ⟨?_, ?_, ?_, ?_⟩
    · exact roundsConsec_append_singleton x.rounds 0 _ hc (by omega)
    · simp only [fillStep, attemptsOfRounds, List.map_append, List.sum_append,
        List.map_cons, List.sum_cons, List.map_nil, List.sum_nil]
      simp only [attemptsOfRounds] at hsum
      omega
    · simpa [fillStep] using h2
    · intro r hr
      simp only [fillStep, List.mem_append, List.mem_singleton] at hr
      rcases hr with hr | rfl
      · exact hall r hr
      · refine ⟨rfl, h1, ?_, ?_⟩ <;> (dsimp only; omega)
  · intro x h1 h
    rwa [fillLoop_done task desired maxA x h1]

theorem failoverOrder_head {platforms : List Platform} (s : Nat) (hne : platforms ≠ []) :
    (failoverOrder platforms s).head? =
      some (platforms.getD (s % platforms.length) default) := by
  have hlen : 0 < platforms.length := List.length_pos.mpr hne
  obtain ⟨m, hm⟩ : ∃ m, platforms.length = m + 1 := ⟨platforms.length - 1, by omega⟩
  unfold failoverOrder
  rw [hm, List.range_succ_eq_map]
  simp [← hm]

theorem runSeq_first_platform {A : Type} (attempt : Platform → Except String A)
    {platforms : List Platform} (s : Nat) (hne : platforms ≠ []) :
    (runSeq attempt (failoverOrder platforms s)).attempted.head? =
      some (platforms.getD (s % platforms.length) default) := by
  cases ho : failoverOrder platforms s with
  | nil =>
    exfalso
    have hlen : 0 < platforms.length := List.length_pos.mpr hne
    have := failoverOrder_length platforms s
    rw [ho] at this
    simp at this
    omega
  | cons p rest =>
    rw [runSeq_head]
    have := failoverOrder_head s hne
    rw [ho] at this
    simpa using this

/-- C2: the effective desired count is the requested `imageCount`
clamped into `[1,4]` (and `1` when absent); `generateImageFromText`
either returns exactly that many images or throws; and when the fill
loop exits short of the target, the thrown message carries the fill
ratio `filled k/n`. -/
theorem generateImageFromText_fill_spec (task : Nat → Except String GeneratedImage)
    (imageCount : Option Int) (maxA : Nat) :
    (desiredCountOf none = 1 ∧
      ∀ n : Int,
        1 ≤ desiredCountOf (some n) ∧ desiredCountOf (some n) ≤ 4 ∧
        (n < 1 → desiredCountOf (some n) = 1) ∧
        (4 < n → desiredCountOf (some n) = 4) ∧
        (1 ≤ n → n ≤ 4 → (desiredCountOf (some n) : Int) = n)) ∧
    (∀ imgs, generateImageFromText task imageCount maxA = .ok imgs →
      imgs.length = desiredCountOf imageCount) ∧
    ((fillLoop task (desiredCountOf imageCount) maxA fillInit).collected.length <
        desiredCountOf imageCount →
      ¬ maxA < desiredCountOf imageCount →
      ∃ pre post : String,
        generateImageFromText task imageCount maxA =
          .error (pre ++ ("filled " ++
            toString (fillLoop task (desiredCountOf imageCount) maxA fillInit).collected.length
            ++ "/" ++ toString (desiredCountOf imageCount)) ++ post)) := by
  refine ⟨⟨rfl, ?_⟩, ?_, ?_⟩
  · intro n
    simp only [desiredCountOf]
    omega
  · intro imgs h
    by_cases hc : maxA < desiredCountOf imageCount
    · simp [generateImageFromText, hc] at h
    · by_cases hs : (fillLoop task (desiredCountOf imageCount) maxA fillInit).collected.length <
          desiredCountOf imageCount
      · simp [generateImageFromText, hc, hs] at h
      · have hle := fillLoop_length_le task (desiredCountOf imageCount) maxA fillInit
          (by simp [fillInit])
        simp [generateImageFromText, hc, hs] at h
        rw [← h]
        omega
  · intro hs hc
    refine ⟨"Gemini API Error: " ++ "generateImageFromText (",
      ")" ++ " failed on all platforms: " ++
        String.intercalate " | "
          ((((if (fillLoop task (desiredCountOf imageCount) maxA fillInit).errors = []
              then ["unknown error"]
              else (fillLoop task (desiredCountOf imageCount) maxA fillInit).errors).map
            (fun e => ("unknown", e))).map (fun e => "[" ++ e.1 ++ "] " ++ e.2))), ?_⟩
    simp only [generateImageFromText, if_neg hc, if_pos hs, buildAggregateError]
    congr 1
    simp only [← String.append_assoc]
    rw [String.append_assoc _ ")" " failed on all platforms: ",
      String.append_assoc _ ")" " failed on all platforms: "]
    simp [← String.append_assoc]

/-- A concrete task where every attempt fails. -/
def cFailTask : Nat → Except String GeneratedImage :=
  fun _ => .error "boom"

theorem cFailTask_fill_eval :
    fillLoop cFailTask 2 2 fillInit = ⟨[], 2, ["boom", "boom"], [(0, 2, 0)]⟩ := by
  rw [fillLoop_step cFailTask 2 2 fillInit (by simp [fillInit]) (by simp [fillInit])]
  have hstep : fillStep cFailTask fillInit (min (2 - fillInit.collected.length) 2) =
      ⟨[], 2, ["boom", "boom"], [(0, 2, 0)]⟩ := by
    rfl
  rw [hstep]
  exact fillLoop_break cFailTask 2 2 _ (by simp) (by simp)

/-- Witness instantiating the C2 theorem: desired count 2, attempt
ceiling 2, every attempt failing — the call throws with fill ratio
`filled 0/2`. -/
theorem generateImageFromText_fill_spec_witness :
    (fillLoop cFailTask (desiredCountOf (some 2)) 2 fillInit).collected.length <
      desiredCountOf (some 2) ∧
    ¬ (2 < desiredCountOf (some 2)) ∧
    (∃ pre post : String,
      generateImageFromText cFailTask (some 2) 2 =
        .error (pre ++ ("filled " ++
          toString (fillLoop cFailTask (desiredCountOf (some 2)) 2 fillInit).collected.length
          ++ "/" ++ toString (desiredCountOf (some 2))) ++ post)) := by
  have hd : desiredCountOf (some 2) = 2 := rfl
  have hs : (fillLoop cFailTask (desiredCountOf (some 2)) 2 fillInit).collected.length <
      desiredCountOf (some 2) := by
    rw [hd, cFailTask_fill_eval]
    simp
  have hc : ¬ (2 < desiredCountOf (some 2)) := by
    decide
  exact ⟨hs, hc, (generateImageFromText_fill_spec cFailTask (some 2) 2).2.2 hs hc⟩

/-- A concrete image used by the fill-loop instantiations. -/
def demoImg : GeneratedImage := ⟨"d", "image/png"⟩

/-- A concrete task where global attempts 2 and 3 fail and all other
attempts succeed. -/
def c4Task : Nat → Except String GeneratedImage :=
  fun n => if n = 2 ∨ n = 3 then .error "no image" else .ok demoImg

theorem c4Task_fill_eval :
    fillLoop c4Task 4 5 fillInit =
      ⟨[demoImg, demoImg], 4, ["no image", "no image"], [(0, 4, 0)]⟩ := by
  rw [fillLoop_step c4Task 4 5 fillInit (by simp [fillInit]) (by simp [fillInit])]
  have hstep : fillStep c4Task fillInit (min (4 - fillInit.collected.length) 4) =
      ⟨[demoImg, demoImg], 4, ["no image", "no image"], [(0, 4, 0)]⟩ := by
    rfl
  rw [hstep]
  exact fillLoop_break c4Task 4 5 _ (by simp) (by simp)

/-- C4 counterexample: with desired count 4, attempt ceiling 5 and a
task where exactly global attempts 2 and 3 fail, the fill loop stops
after one round in a state with `collected = 2 < 4` and
`attempts = 4 < 5` — no further round is launched even though
`collected < desiredCount` and `attempts < maxAttempts`, so the whole
call throws instead of succeeding. -/
theorem generateImageFromText_rounds_counterexample :
    (fillLoop c4Task 4 5 fillInit).collected.length = 2 ∧
    (fillLoop c4Task 4 5 fillInit).attempts = 4 ∧
    (fillLoop c4Task 4 5 fillInit).rounds = [(0, 4, 0)] ∧
    (4 : Nat) < 5 ∧ (2 : Nat) < 4 ∧
    desiredCountOf (some 4) = 4 ∧
    (generateImageFromText c4Task (some 4) 5).toOption = none := by
  refine ⟨?_, ?_, ?_, by omega, by omega, rfl, ?_⟩
  · simp [c4Task_fill_eval]
  · simp [c4Task_fill_eval]
  · simp [c4Task_fill_eval]
  · have hd : desiredCountOf (some 4) = 4 := rfl
    simp only [generateImageFromText, hd]
    rw [if_neg (by omega)]
    rw [c4Task_fill_eval]
    simp [Except.toOption]

/-- C4 (amended): the attempt ceiling must be at least the desired
count, else the call fails with the configuration error; each round
launched from a state with `collected < desiredCount` has size
`min(desiredCount - collected, desiredCount)` and is admitted only
when it fits under the ceiling (`attempts + parallel ≤ maxAttempts`
— not merely `attempts < maxAttempts`); rounds are consecutive so
`attempts` grows by exactly the number launched; the total never
exceeds `maxAttempts`; the loop stops only at target or when the next
round would overflow the ceiling; and attempt `n` starts its failover
at platform index `n % platformCount`. -/
theorem generateImageFromText_rounds_spec
    (oracle : Nat → Platform → Except String GeminiResponse)
    (platforms : List Platform) (imageCount : Option Int) (maxA : Nat)
    (hne : platforms ≠ []) :
    (maxA < desiredCountOf imageCount →
      generateImageFromTextOracle oracle platforms imageCount maxA =
        .error "Gemini API Error: Invalid VITE_GEMINI_FILL_MAX_TOTAL_ATTEMPTS; must be a positive integer.") ∧
    (roundsConsec (fillLoop (singleImageTask oracle platforms)
        (desiredCountOf imageCount) maxA fillInit).rounds 0 ∧
      attemptsOfRounds (fillLoop (singleImageTask oracle platforms)
          (desiredCountOf imageCount) maxA fillInit).rounds =
        (fillLoop (singleImageTask oracle platforms)
          (desiredCountOf imageCount) maxA fillInit).attempts ∧
      (fillLoop (singleImageTask oracle platforms)
          (desiredCountOf imageCount) maxA fillInit).attempts ≤ maxA ∧
      (∀ r ∈ (fillLoop (singleImageTask oracle platforms)
          (desiredCountOf imageCount) maxA fillInit).rounds,
        r.2.1 = min (desiredCountOf imageCount - r.2.2) (desiredCountOf imageCount) ∧
        r.2.2 < desiredCountOf imageCount ∧ r.1 + r.2.1 ≤ maxA ∧ 1 ≤ r.2.1) ∧
      ((fillLoop (singleImageTask oracle platforms)
          (desiredCountOf imageCount) maxA fillInit).collected.length <
          desiredCountOf imageCount →
        maxA < (fillLoop (singleImageTask oracle platforms)
            (desiredCountOf imageCount) maxA fillInit).attempts +
          min (desiredCountOf imageCount -
              (fillLoop (singleImageTask oracle platforms)
                (desiredCountOf imageCount) maxA fillInit).collected.length)
            (desiredCountOf imageCount))) ∧
    (∀ n : Nat,
      (runSeq (oracle n) (failoverOrder platforms (n % platforms.length))).attempted.head? =
        some (platforms.getD (n % platforms.length) default)) := by
  refine ⟨?_, ?_, ?_⟩
  · intro hlt
    simp [generateImageFromTextOracle, generateImageFromText, hlt]
  · have hinv := fillLoop_inv (singleImageTask oracle platforms)
      (desiredCountOf imageCount) maxA fillInit
      ⟨trivial, rfl, Nat.zero_le _, by simp [fillInit]⟩
    obtain ⟨h1, h2, h3, h4⟩ := hinv
    exact ⟨h1, h2, h3, h4,
      fillLoop_exit (singleImageTask oracle platforms) (desiredCountOf imageCount) maxA fillInit⟩
  · intro n
    have h := runSeq_first_platform (oracle n) (n % platforms.length) hne
    rwa [Nat.mod_mod] at h

/-- A concrete response oracle: every upstream call returns one
inline image. -/
def demoOracle : Nat → Platform → Except String GeminiResponse :=
  fun _ _ => .ok [[⟨some ("d", "image/png")⟩]]

/-- Witness instantiating the amended C4 theorem on three concrete
platforms with desired count 3 and the default ceiling 40. -/
theorem generateImageFromText_rounds_spec_witness :
    demoPlatforms ≠ [] ∧
    ((DEFAULT_FILL_MAX_TOTAL_ATTEMPTS < desiredCountOf (some 3) →
      generateImageFromTextOracle demoOracle demoPlatforms (some 3) DEFAULT_FILL_MAX_TOTAL_ATTEMPTS =
        .error "Gemini API Error: Invalid VITE_GEMINI_FILL_MAX_TOTAL_ATTEMPTS; must be a positive integer.") ∧
    (roundsConsec (fillLoop (singleImageTask demoOracle demoPlatforms)
        (desiredCountOf (some 3)) DEFAULT_FILL_MAX_TOTAL_ATTEMPTS fillInit).rounds 0 ∧
      attemptsOfRounds (fillLoop (singleImageTask demoOracle demoPlatforms)
          (desiredCountOf (some 3)) DEFAULT_FILL_MAX_TOTAL_ATTEMPTS fillInit).rounds =
        (fillLoop (singleImageTask demoOracle demoPlatforms)
          (desiredCountOf (some 3)) DEFAULT_FILL_MAX_TOTAL_ATTEMPTS fillInit).attempts ∧
      (fillLoop (singleImageTask demoOracle demoPlatforms)
          (desiredCountOf (some 3)) DEFAULT_FILL_MAX_TOTAL_ATTEMPTS fillInit).attempts ≤
        DEFAULT_FILL_MAX_TOTAL_ATTEMPTS ∧
      (∀ r ∈ (fillLoop (singleImageTask demoOracle demoPlatforms)
          (desiredCountOf (some 3)) DEFAULT_FILL_MAX_TOTAL_ATTEMPTS fillInit).rounds,
        r.2.1 = min (desiredCountOf (some 3) - r.2.2) (desiredCountOf (some 3)) ∧
        r.2.2 < desiredCountOf (some 3) ∧
        r.1 + r.2.1 ≤ DEFAULT_FILL_MAX_TOTAL_ATTEMPTS ∧ 1 ≤ r.2.1) ∧
      ((fillLoop (singleImageTask demoOracle demoPlatforms)
          (desiredCountOf (some 3)) DEFAULT_FILL_MAX_TOTAL_ATTEMPTS fillInit).collected.length <
          desiredCountOf (some 3) →
        DEFAULT_FILL_MAX_TOTAL_ATTEMPTS <
          (fillLoop (singleImageTask demoOracle demoPlatforms)
              (desiredCountOf (some 3)) DEFAULT_FILL_MAX_TOTAL_ATTEMPTS fillInit).attempts +
            min (desiredCountOf (some 3) -
                (fillLoop (singleImageTask demoOracle demoPlatforms)
                  (desiredCountOf (some 3)) DEFAULT_FILL_MAX_TOTAL_ATTEMPTS fillInit).collected.length)
              (desiredCountOf (some 3)))) ∧
    (∀ n : Nat,
      (runSeq (demoOracle n)
          (failoverOrder demoPlatforms (n % demoPlatforms.length))).attempted.head? =
        some (demoPlatforms.getD (n % demoPlatforms.length) default))) :=
  ⟨by decide,
    generateImageFromText_rounds_spec demoOracle demoPlatforms (some 3)
      DEFAULT_FILL_MAX_TOTAL_ATTEMPTS (by decide)⟩

/-! ### Session authenticator (`src/server/auth.js`)

Strings at this layer are modelled as lists of byte codes (`List Nat`,
each element < 256): the payload JSON is ASCII and
`base64UrlEncode`/HMAC work on bytes.  The HMAC-SHA256 digest function
itself is a parameter `hmac : List Nat → List Nat → List Nat`
(secret, message ↦ digest bytes); everything downstream of it —
base64url, token assembly, parsing, signature comparison, expiry
check — is embedded concretely. -/

/-- Convert a number to its decimal digit list, least significant
first, with explicit fuel (`fuel > n` suffices). -/
def toDigitsRev (fuel n : Nat) : List Nat :=
  match fuel with
  | 0 => []
  | fuel + 1 => if n < 10 then [n] else n % 10 :: toDigitsRev fuel (n / 10)

/-- ASCII codes of the usual decimal rendering of `n` (as
`JSON.stringify` prints a nonnegative integer). -/
def printNat (n : Nat) : List Nat :=
  ((toDigitsRev (n + 1) n).reverse).map (fun d => d + 48)

/-- Value of a least-significant-first digit list. -/
def valDigitsRev : List Nat → Nat
  | [] => 0
  | d :: rest => d + 10 * valDigitsRev rest

/-- Value of a most-significant-first ASCII digit code list. -/
def digitsVal (cs : List Nat) : Nat :=
  cs.foldl (fun acc c => acc * 10 + (c - 48)) 0

def isDigitCode (c : Nat) : Bool := 48 ≤ c && c ≤ 57

theorem toDigitsRev_val : ∀ fuel n, n < fuel → valDigitsRev (toDigitsRev fuel n) = n := by
  intro fuel
  induction fuel with
  | zero => intro n h; omega
  | succ fuel ih =>
    intro n h
    by_cases h10 : n < 10
    · simp [toDigitsRev, h10, valDigitsRev]
    · have hd : n / 10 < fuel := by omega
      simp only [toDigitsRev, if_neg h10, valDigitsRev, ih (n / 10) hd]
      omega

theorem toDigitsRev_lt10 : ∀ fuel n d, d ∈ toDigitsRev fuel n → d < 10 := by
  intro fuel
  induction fuel with
  | zero => intro n d h; simp [toDigitsRev] at h
  | succ fuel ih =>
    intro n d h
    by_cases h10 : n < 10
    · simp [toDigitsRev, h10] at h
      omega
    · simp only [toDigitsRev, if_neg h10, List.mem_cons] at h
      rcases h with rfl | h
      · omega
      · exact ih (n / 10) d h

theorem toDigitsRev_ne_nil (fuel n : Nat) (h : 0 < fuel) : toDigitsRev fuel n ≠ [] := by
  cases fuel with
  | zero => omega
  | succ fuel =>
    by_cases h10 : n < 10 <;> simp [toDigitsRev, h10]

theorem printNat_ne_nil (n : Nat) : printNat n ≠ [] := by
  simp only [printNat, ne_eq, List.map_eq_nil_iff, List.reverse_eq_nil_iff]
  exact toDigitsRev_ne_nil (n + 1) n (by omega)

theorem printNat_digits (n : Nat) : ∀ c ∈ printNat n, isDigitCode c = true := by
  intro c hc
  simp only [printNat, List.mem_map, List.mem_reverse] at hc
  obtain ⟨d, hd, rfl⟩ := hc
  have := toDigitsRev_lt10 (n + 1) n d hd
  simp only [isDigitCode, Bool.and_eq_true, decide_eq_true_eq]
  omega

theorem printNat_lt256 (n : Nat) : ∀ c ∈ printNat n, c < 256 := by
  intro c hc
  have := printNat_digits n c hc
  simp [isDigitCode] at this
  omega

/-- Value of a most-significant-first raw digit list. -/
def rawVal (ds : List Nat) : Nat := ds.foldl (fun a d => a * 10 + d) 0

theorem rawVal_append_singleton (l : List Nat) (d : Nat) :
    rawVal (l ++ [d]) = rawVal l * 10 + d := by
  simp [rawVal, List.foldl_append]

theorem rawVal_reverse (ds : List Nat) : rawVal ds.reverse = valDigitsRev ds := by
  induction ds with
  | nil => rfl
  | cons d rest ih =>
    simp only [List.reverse_cons, rawVal_append_singleton, ih, valDigitsRev]
    omega

theorem digitsVal_printNat (n : Nat) : digitsVal (printNat n) = n := by
  have h1 : digitsVal (printNat n) = rawVal ((toDigitsRev (n + 1) n).reverse) := by
    simp only [digitsVal, printNat, rawVal, List.foldl_map]
    congr 1
  rw [h1, rawVal_reverse, toDigitsRev_val (n + 1) n (by omega)]

theorem takeWhile_all_append_cons (p : Nat → Bool) (xs : List Nat) (y : Nat)
    (rest : List Nat) (hall : ∀ x ∈ xs, p x = true) (hy : p y = false) :
    (xs ++ y :: rest).takeWhile p = xs ∧ (xs ++ y :: rest).dropWhile p = y :: rest := by
  induction xs with
  | nil => simp [List.takeWhile, List.dropWhile, hy]
  | cons x t ih =>
    have hx : p x = true := hall x (List.mem_cons_self x t)
    have ht : ∀ z ∈ t, p z = true := fun z hz => hall z (List.mem_cons_of_mem x hz)
    obtain ⟨h1, h2⟩ := ih ht
    simp [List.takeWhile, List.dropWhile, hx, h1, h2]

/-- Group bytes into 6-bit values, exactly as standard base64 does
(`Buffer.toString("base64")` with the `=` padding already stripped,
as `base64UrlEncode` in `auth.js` strips it). -/
def bytesToSextets : List Nat → List Nat
  | a :: b :: c :: rest =>
    a / 4 :: ((a % 4) * 16 + b / 16) :: ((b % 16) * 4 + c / 64) :: (c % 64) ::
      bytesToSextets rest
  | [a, b] => [a / 4, (a % 4) * 16 + b / 16, (b % 16) * 4]
  | [a] => [a / 4, (a % 4) * 16]
  | [] => []

/-- Inverse grouping, as `Buffer.from(-, "base64")` decodes after
`base64UrlDecodeToString` re-adds the padding. -/
def sextetsToBytes : List Nat → List Nat
  | s0 :: s1 :: s2 :: s3 :: rest =>
    (s0 * 4 + s1 / 16) :: ((s1 % 16) * 16 + s2 / 4) :: ((s2 % 4) * 64 + s3) ::
      sextetsToBytes rest
  | [s0, s1, s2] => [s0 * 4 + s1 / 16, (s1 % 16) * 16 + s2 / 4]
  | [s0, s1] => [s0 * 4 + s1 / 16]
  | _ => []

/-- The base64url alphabet (`A-Z a-z 0-9 - _`, i.e. standard base64
with `+` replaced by `-` and `/` by `_`). -/
def sextetCode (s : Nat) : Nat :=
  if s < 26 then 65 + s
  else if s < 52 then 97 + (s - 26)
  else if s < 62 then 48 + (s - 52)
  else if s = 62 then 45
  else 95

/-- Inverse of the base64url alphabet. -/
def codeSextet (c : Nat) : Nat :=
  if 65 ≤ c ∧ c ≤ 90 then c - 65
  else if 97 ≤ c ∧ c ≤ 122 then c - 97 + 26
  else if 48 ≤ c ∧ c ≤ 57 then c - 48 + 52
  else if c = 45 then 62
  else 63

/-- `base64UrlEncode` of `auth.js`, at byte level. -/
def base64UrlEncode (bytes : List Nat) : List Nat :=
  (bytesToSextets bytes).map sextetCode

/-- `base64UrlDecodeToString` of `auth.js`, at byte level. -/
def base64UrlDecode (codes : List Nat) : List Nat :=
  sextetsToBytes (codes.map codeSextet)

theorem codeSextet_sextetCode : ∀ s, s < 64 → codeSextet (sextetCode s) = s := by
  decide

theorem sextetCode_ne_dot (s : Nat) : sextetCode s ≠ 46 := by
  unfold sextetCode
  split
  · omega
  split
  · omega
  split
  · omega
  split
  · omega
  · omega

theorem bytesToSextets_lt64 : ∀ bs : List Nat, (∀ b ∈ bs, b < 256) →
    ∀ s ∈ bytesToSextets bs, s < 64 := by
  intro bs
  induction bs using bytesToSextets.induct with
  | case1 a b c rest ih =>
    intro hb s hs
    have ha' : a < 256 := hb a (by simp)
    have hb' : b < 256 := hb b (by simp)
    have hc' : c < 256 := hb c (by simp)
    simp only [bytesToSextets, List.mem_cons] at hs
    rcases hs with rfl | rfl | rfl | rfl | hs
    · omega
    · omega
    · omega
    · omega
    · exact ih (fun x hx => hb x (by simp [hx])) s hs
  | case2 a b =>
    intro hb s hs
    have ha' : a < 256 := hb a (by simp)
    have hb' : b < 256 := hb b (by simp)
    simp only [bytesToSextets, List.mem_cons] at hs
    rcases hs with rfl | rfl | rfl | hs
    · omega
    · omega
    · omega
    · simp at hs
  | case3 a =>
    intro hb s hs
    have ha' : a < 256 := hb a (by simp)
    simp only [bytesToSextets, List.mem_cons] at hs
    rcases hs with rfl | rfl | hs
    · omega
    · omega
    · simp at hs
  | case4 =>
    intro _ s hs
    simp [bytesToSextets] at hs

theorem sextetsToBytes_bytesToSextets : ∀ bs : List Nat, (∀ b ∈ bs, b < 256) →
    sextetsToBytes (bytesToSextets bs) = bs := by
  intro bs
  induction bs using bytesToSextets.induct with
  | case1 a b c rest ih =>
    intro hb
    have ha' : a < 256 := hb a (by simp)
    have hb' : b < 256 := hb b (by simp)
    have hc' : c < 256 := hb c (by simp)
    simp only [bytesToSextets, sextetsToBytes]
    rw [ih (fun x hx => hb x (by simp [hx]))]
    refine congrArg₂ _ ?_ (congrArg₂ _ ?_ (congrArg₂ _ ?_ rfl)) <;> omega
  | case2 a b =>
    intro hb
    have ha' : a < 256 := hb a (by simp)
    have hb' : b < 256 := hb b (by simp)
    simp only [bytesToSextets, sextetsToBytes]
    refine congrArg₂ _ ?_ (congrArg₂ _ ?_ rfl) <;> omega
  | case3 a =>
    intro hb
    have ha' : a < 256 := hb a (by simp)
    simp only [bytesToSextets, sextetsToBytes]
    refine congrArg₂ _ ?_ rfl
    omega
  | case4 =>
    intro _
    rfl

theorem base64UrlDecode_encode (bs : List Nat) (hb : ∀ b ∈ bs, b < 256) :
    base64UrlDecode (base64UrlEncode bs) = bs := by
  unfold base64UrlDecode base64UrlEncode
  rw [List.map_map]
  have hid : ∀ s ∈ bytesToSextets bs, (codeSextet ∘ sextetCode) s = id s := by
    intro s hs
    simp only [Function.comp_apply, id]
    exact codeSextet_sextetCode s (bytesToSextets_lt64 bs hb s hs)
  rw [List.map_congr_left hid, List.map_id]
  exact sextetsToBytes_bytesToSextets bs hb

theorem base64UrlEncode_no_dot (bs : List Nat) : ∀ c ∈ base64UrlEncode bs, c ≠ 46 := by
  intro c hc
  simp only [base64UrlEncode, List.mem_map] at hc
  obtain ⟨s, _, rfl⟩ := hc
  exact sextetCode_ne_dot s

theorem bytesToSextets_ne_nil : ∀ (a : Nat) (rest : List Nat),
    bytesToSextets (a :: rest) ≠ [] := by
  intro a rest
  match rest with
  | [] => simp [bytesToSextets]
  | [b] => simp [bytesToSextets]
  | b :: c :: t => simp [bytesToSextets]

theorem base64UrlEncode_ne_nil (a : Nat) (rest : List Nat) :
    base64UrlEncode (a :: rest) ≠ [] := by
  simp only [base64UrlEncode, ne_eq, List.map_eq_nil_iff]
  exact bytesToSextets_ne_nil a rest

/-- ASCII codes of the literal `{"iat":` opening the payload JSON. -/
def litIatCodes : List Nat := [123, 34, 105, 97, 116, 34, 58]

/-- ASCII codes of the literal `,"exp":` between the two fields. -/
def litExpCodes : List Nat := [44, 34, 101, 120, 112, 34, 58]

/-- Byte codes of `JSON.stringify({iat, exp})`:
`{"iat":<iat>,"exp":<exp>}`. -/
def jsonPayloadCodes (iat expiry : Nat) : List Nat :=
  litIatCodes ++ printNat iat ++ litExpCodes ++ printNat expiry ++ [125]

theorem jsonPayloadCodes_lt256 (iat expiry : Nat) :
    ∀ b ∈ jsonPayloadCodes iat expiry, b < 256 := by
  intro b hb
  simp only [jsonPayloadCodes, List.append_assoc, List.mem_append,
    List.mem_singleton] at hb
  rcases hb with h | h | h | h | h
  · simp [litIatCodes] at h
    omega
  · exact printNat_lt256 iat b h
  · simp [litExpCodes] at h
    omega
  · exact printNat_lt256 expiry b h
  · omega

/-- Match a literal at the head of a code list, returning the rest. -/
def stripLit : List Nat → List Nat → Option (List Nat)
  | [], l => some l
  | _ :: _, [] => none
  | p :: ps, c :: cs => if c = p then stripLit ps cs else none

theorem stripLit_append (ps l : List Nat) : stripLit ps (ps ++ l) = some l := by
  induction ps with
  | nil => rfl
  | cons p t ih => simp [stripLit, ih]

/-- `JSON.parse` of the payload followed by reading `.exp`, reduced to
the shape `createSessionCookie` actually produces: on any byte list
not of the form `{"iat":<digits>,"exp":<digits>}` the source's
`JSON.parse`/field access yields `exp = 0` or throws, both of which
`isLoggedIn` maps to `false`; `none` models those outcomes. -/
def parseSessionExp (codes : List Nat) : Option Nat :=
  match stripLit litIatCodes codes with
  | none => none
  | some r1 =>
    let r2 := r1.dropWhile (fun c => isDigitCode c)
    match stripLit litExpCodes r2 with
    | none => none
    | some r3 =>
      let ds := r3.takeWhile (fun c => isDigitCode c)
      let rest := r3.dropWhile (fun c => isDigitCode c)
      if ds = [] then none
      else if rest = [125] then some (digitsVal ds) else none

theorem parseSessionExp_payload (iat expiry : Nat) :
    parseSessionExp (jsonPayloadCodes iat expiry) = some expiry := by
  have h44 : isDigitCode 44 = false := by decide
  have h125 : isDigitCode 125 = false := by decide
  obtain ⟨htake2, hdrop2⟩ := takeWhile_all_append_cons (fun c => isDigitCode c)
    (printNat expiry) 125 [] (fun x hx => printNat_digits expiry x hx) h125
  obtain ⟨htake1, hdrop1⟩ := takeWhile_all_append_cons (fun c => isDigitCode c)
    (printNat iat) 44 ((litExpCodes.drop 1) ++ printNat expiry ++ [125])
    (fun x hx => printNat_digits iat x hx) h44
  have hshape : jsonPayloadCodes iat expiry =
      litIatCodes ++ (printNat iat ++ 44 :: ((litExpCodes.drop 1) ++ printNat expiry ++ [125])) := by
    simp [jsonPayloadCodes, litExpCodes]
  rw [parseSessionExp, hshape, stripLit_append]
  simp only [hdrop1]
  have hexp : 44 :: ((litExpCodes.drop 1) ++ printNat expiry ++ [125]) =
      litExpCodes ++ (printNat expiry ++ [125]) := by
    simp [litExpCodes]
  rw [hexp, stripLit_append]
  simp only [htake2, hdrop2]
  simp [printNat_ne_nil expiry, digitsVal_printNat]

/-- An error carrying the optional `statusCode` the server attaches
to thrown `Error` objects, and the message. -/
structure AppError where
  statusCode : Option Nat
  message : String
deriving DecidableEq, Repr

/-- `sign(secret, payload)` of `auth.js`:
`base64UrlEncode(HMAC-SHA256(secret, payload))`, with the digest
function abstracted as `hmac`. -/
def signToken (hmac : List Nat → List Nat → List Nat)
    (secret payload : List Nat) : List Nat :=
  base64UrlEncode (hmac secret payload)

/-- The `base64url(payload)` segment of a session issued at `now`
with lifetime `ttl`. -/
def sessionPayload (now ttl : Nat) : List Nat :=
  base64UrlEncode (jsonPayloadCodes now (now + ttl))

/-- The token `payload + "." + sign(secret, payload)` (byte 46 is
`"."`). -/
def sessionTokenBytes (hmac : List Nat → List Nat → List Nat)
    (secret : List Nat) (now ttl : Nat) : List Nat :=
  sessionPayload now ttl ++ 46 :: signToken hmac secret (sessionPayload now ttl)

/-- `DEFAULT_TTL_SECONDS` (7 days). -/
def DEFAULT_TTL_SECONDS : Nat := 60 * 60 * 24 * 7

/-- `createSessionCookie` reduced to the token it embeds in the
cookie: issuance fails with a 500 configuration error when no secret
is configured. -/
def createSessionToken (hmac : List Nat → List Nat → List Nat)
    (secret : List Nat) (now ttl : Nat) : Except AppError (List Nat) :=
  if secret = [] then
    .error ⟨some 500, "服务端未设置 BANANAPOD_AUTH_SECRET 或 BANANAPOD_ADMIN_PASSWORD，无法启用登录。"⟩
  else .ok (sessionTokenBytes hmac secret now ttl)

/-- `isLoggedIn` reduced to the token check: split at the first `"."`
(`indexOf`; rejecting a missing or leading dot), recompute the HMAC
over the payload segment under the current secret and compare byte
for byte, then decode the payload and require `exp > now`. -/
def verifySessionToken (hmac : List Nat → List Nat → List Nat)
    (secret token : List Nat) (now : Nat) : Bool :=
  if secret = [] then false
  else
    let dot := token.findIdx (fun c => c == 46)
    if dot = 0 then false
    else if dot = token.length then false
    else
      let payload := token.take dot
      let sig := token.drop (dot + 1)
      if sig ≠ signToken hmac secret payload then false
      else
        match parseSessionExp (base64UrlDecode payload) with
        | none => false
        | some expiry => decide (now < expiry)

theorem findIdx_sep (payload sig : List Nat) (h : ∀ c ∈ payload, c ≠ 46) :
    (payload ++ 46 :: sig).findIdx (fun c => c == 46) = payload.length := by
  induction payload with
  | nil => simp [List.findIdx_cons]
  | cons a t ih =>
    have ha : a ≠ 46 := h a (List.mem_cons_self a t)
    have ha' : (a == 46) = false := by simpa using ha
    have ht := ih (fun c hc => h c (List.mem_cons_of_mem a hc))
    simp [List.findIdx_cons, ha', ht]

theorem base64UrlEncode_ne_nil_of_ne_nil (bs : List Nat) (h : bs ≠ []) :
    base64UrlEncode bs ≠ [] := by
  cases bs with
  | nil => exact absurd rfl h
  | cons a rest => exact base64UrlEncode_ne_nil a rest

theorem jsonPayloadCodes_ne_nil (iat expiry : Nat) : jsonPayloadCodes iat expiry ≠ [] := by
  simp [jsonPayloadCodes, litIatCodes]

theorem verifySessionToken_issued (hmac : List Nat → List Nat → List Nat)
    (secret secret' : List Nat) (now ttl now' : Nat) (hs' : secret' ≠ []) :
    verifySessionToken hmac secret' (sessionTokenBytes hmac secret now ttl) now' =
      (decide (signToken hmac secret' (sessionPayload now ttl) =
        signToken hmac secret (sessionPayload now ttl)) && decide (now' < now + ttl)) := by
  have hnodot : ∀ c ∈ sessionPayload now ttl, c ≠ 46 :=
    base64UrlEncode_no_dot (jsonPayloadCodes now (now + ttl))
  have hne : sessionPayload now ttl ≠ [] :=
    base64UrlEncode_ne_nil_of_ne_nil _ (jsonPayloadCodes_ne_nil now (now + ttl))
  have hlen : 0 < (sessionPayload now ttl).length := List.length_pos.mpr hne
  unfold verifySessionToken sessionTokenBytes
  rw [if_neg hs']
  rw [findIdx_sep _ _ hnodot]
  rw [if_neg (by omega)]
  rw [if_neg (by simp)]
  have htake : (sessionPayload now ttl ++ 46 ::
      signToken hmac secret (sessionPayload now ttl)).take (sessionPayload now ttl).length =
      sessionPayload now ttl := List.take_left _ _
  have hsplit : sessionPayload now ttl ++ 46 ::
      signToken hmac secret (sessionPayload now ttl) =
      (sessionPayload now ttl ++ [46]) ++ signToken hmac secret (sessionPayload now ttl) := by
    simp
  have hdrop : (sessionPayload now ttl ++ 46 ::
      signToken hmac secret (sessionPayload now ttl)).drop ((sessionPayload now ttl).length + 1) =
      signToken hmac secret (sessionPayload now ttl) := by
    rw [hsplit]
    have : (sessionPayload now ttl ++ [46]).length = (sessionPayload now ttl).length + 1 := by
      simp
    rw [← this, List.drop_left]
  rw [htake, hdrop]
  by_cases hsig : signToken hmac secret (sessionPayload now ttl) =
      signToken hmac secret' (sessionPayload now ttl)
  · rw [if_neg (by simpa using hsig)]
    have hparse : parseSessionExp (base64UrlDecode (sessionPayload now ttl)) =
        some (now + ttl) := by
      rw [sessionPayload, base64UrlDecode_encode _ (jsonPayloadCodes_lt256 now (now + ttl)),
        parseSessionExp_payload]
    simp only [hparse]
    rw [decide_eq_true hsig.symm]
    simp
  · rw [if_pos (by simpa using hsig)]
    have : ¬ (signToken hmac secret' (sessionPayload now ttl) =
        signToken hmac secret (sessionPayload now ttl)) := fun h => hsig h.symm
    simp [this]

/-- C5: a token issued under a configured secret verifies as a valid
session exactly when the signature recomputed under the *current*
secret matches the token's signature segment and the current time is
before the expiry `issuedAt + ttl`.  In particular `verify(issue())`
is true immediately after issuance (`now' = now`, `ttl > 0`), false
once the expiry has elapsed, and false after the secret changes to
one under which the HMAC of the payload segment differs (third
conjunct bridges signature equality to digest equality). -/
theorem session_token_valid_iff (hmac : List Nat → List Nat → List Nat)
    (secret secret' : List Nat) (now ttl now' : Nat)
    (hs : secret ≠ []) (hs' : secret' ≠ []) :
    createSessionToken hmac secret now ttl = .ok (sessionTokenBytes hmac secret now ttl) ∧
    (verifySessionToken hmac secret' (sessionTokenBytes hmac secret now ttl) now' = true ↔
      (signToken hmac secret' (sessionPayload now ttl) =
        signToken hmac secret (sessionPayload now ttl) ∧ now' < now + ttl)) ∧
    ((∀ b ∈ hmac secret' (sessionPayload now ttl), b < 256) →
      (∀ b ∈ hmac secret (sessionPayload now ttl), b < 256) →
      (signToken hmac secret' (sessionPayload now ttl) =
          signToken hmac secret (sessionPayload now ttl) ↔
        hmac secret' (sessionPayload now ttl) = hmac secret (sessionPayload now ttl))) := by
  refine ⟨by simp [createSessionToken, hs], ?_, ?_⟩
  · rw [verifySessionToken_issued hmac secret secret' now ttl now' hs']
    simp
  · intro hb' hb
    constructor
    · intro h
      rw [signToken, signToken] at h
      have h2 := congrArg base64UrlDecode h
      rwa [base64UrlDecode_encode _ hb', base64UrlDecode_encode _ hb] at h2
    · intro h
      rw [signToken, signToken, h]

/-- A concrete stand-in digest function for the witness. -/
def demoHmac : List Nat → List Nat → List Nat :=
  fun s m => [(s.sum + m.sum) % 256]

/-- Witness instantiating the C5 theorem: secret `[1]`, verifying
secret `[2]`, issued at 5 with ttl 10, checked at 7. -/
theorem session_token_valid_iff_witness :
    ([1] : List Nat) ≠ [] ∧ ([2] : List Nat) ≠ [] ∧
    (createSessionToken demoHmac [1] 5 10 = .ok (sessionTokenBytes demoHmac [1] 5 10) ∧
      (verifySessionToken demoHmac [2] (sessionTokenBytes demoHmac [1] 5 10) 7 = true ↔
        (signToken demoHmac [2] (sessionPayload 5 10) =
          signToken demoHmac [1] (sessionPayload 5 10) ∧ 7 < 5 + 10)) ∧
      ((∀ b ∈ demoHmac [2] (sessionPayload 5 10), b < 256) →
        (∀ b ∈ demoHmac [1] (sessionPayload 5 10), b < 256) →
        (signToken demoHmac [2] (sessionPayload 5 10) =
            signToken demoHmac [1] (sessionPayload 5 10) ↔
          demoHmac [2] (sessionPayload 5 10) = demoHmac [1] (sessionPayload 5 10)))) :=
  ⟨by decide, by decide,
    session_token_valid_iff demoHmac [1] [2] 5 10 7 (by decide) (by decide)⟩

/-! ### Platform registry (`src/server/auth.js`, second half:
`coerceGeminiPlatforms`, `getGeminiPlatforms`,
`upsertGeminiPlatforms`)

Registry strings are modelled as Lean `String`s.  The persisted
configuration document is reduced to the gemini platform list it
stores; `upsertGeminiPlatforms` is given explicit state, returning
the stored list after the call together with the call's outcome. -/

/-- One entry of the `platforms` array submitted to the upsert
endpoint.  A field is `none` when it is absent or not a string
(`typeof p?.x === "string"` fails). -/
structure RawPlatformInput where
  id : Option String
  baseUrl : Option String
  model : Option String
  apiKey : Option String
deriving DecidableEq, Repr

/-- The whitespace JS `String.prototype.trim` removes (main cases). -/
def isJsWhitespace (c : Char) : Bool :=
  c == ' ' || c == '\t' || c == '\n' || c == '\r'

/-- JS `value.trim()`. -/
def jsTrim (s : String) : String :=
  ⟨((s.data.dropWhile isJsWhitespace).reverse.dropWhile isJsWhitespace).reverse⟩

/-- `normalizeBaseUrl`: `value.endsWith("/") ? value : value + "/"`
(for the one-character suffix, `endsWith "/"` is exactly a last
character test). -/
def normalizeBaseUrl (v : String) : String :=
  if v.data.getLast? = some '/' then v else v ++ "/"

/-- `platformId(baseUrl, model, index)`:
`` `gemini#${index + 1}:${baseUrl}|${model}` ``. -/
def platformId (baseUrl model : String) (index : Nat) : String :=
  "gemini#" ++ toString (index + 1) ++ ":" ++ baseUrl ++ "|" ++ model

/-- Field coercion of one submitted entry, as the `map` at the top of
`coerceGeminiPlatforms` does it. -/
def coercePlatform (p : RawPlatformInput) : Platform :=
  { id := p.id.getD "",
    baseUrl := match p.baseUrl with
      | some s => normalizeBaseUrl (jsTrim s)
      | none => "",
    model := match p.model with
      | some s => jsTrim s
      | none => "",
    apiKey := match p.apiKey with
      | some s => jsTrim s
      | none => "" }

/-- The validation error list collected by `coerceGeminiPlatforms`:
for each entry (in order), a baseUrl message when the coerced baseUrl
is empty, then a model message when the coerced model is empty. -/
def validationErrors (input : List RawPlatformInput) : List String :=
  ((input.map coercePlatform).enum.map (fun ip =>
    (if ip.2.baseUrl = "" then ["platforms[" ++ toString ip.1 ++ "].baseUrl 不能为空"] else []) ++
    (if ip.2.model = "" then ["platforms[" ++ toString ip.1 ++ "].model 不能为空"] else []))).flatten

/-- `coerceGeminiPlatforms`: coerce fields, fail with the joined
validation errors (status 400) when any were collected, then assign
generated ids to entries that did not carry one. -/
def coerceGeminiPlatforms (input : List RawPlatformInput) : Except AppError (List Platform) :=
  let platforms := input.map coercePlatform
  if validationErrors input ≠ [] then
    .error ⟨some 400, String.intercalate "; " (validationErrors input)⟩
  else
    .ok (platforms.enum.map (fun ip =>
      if ip.2.id = "" then { ip.2 with id := platformId ip.2.baseUrl ip.2.model ip.1 }
      else ip.2))

/-- `getGeminiPlatforms`: read the stored list, re-normalize each
baseUrl, and keep only entries whose four fields are nonempty. -/
def getGeminiPlatforms (cfg : List Platform) : List Platform :=
  (cfg.map (fun p => { p with baseUrl := normalizeBaseUrl p.baseUrl })).filter
    (fun p => p.id != "" && p.baseUrl != "" && p.model != "" && p.apiKey != "")

/-- `redactApiKey`: `first4****last4`, or `********` when the key has
at most 8 characters. -/
def redactApiKey (v : String) : String :=
  if v = "" then ""
  else if v.length ≤ 8 then "********"
  else v.take 4 ++ "****" ++ v.drop (v.length - 4)

/-- A platform as returned to the admin UI, credential masked. -/
structure RedactedPlatform where
  id : String
  baseUrl : String
  model : String
  apiKeyMasked : String
  hasApiKey : Bool
deriving DecidableEq, Repr

/-- `getGeminiPlatformsRedacted`. -/
def getGeminiPlatformsRedacted (cfg : List Platform) : List RedactedPlatform :=
  (getGeminiPlatforms cfg).map (fun p =>
    ⟨p.id, p.baseUrl, p.model, redactApiKey p.apiKey, p.apiKey != ""⟩)

/-- Lookup in `currentById = new Map(currentPlatforms.map(p => [p.id, p]))`:
a JS `Map` built from an entry list keeps the *last* entry per key. -/
def mapLookupLast (l : List Platform) (id : String) : Option Platform :=
  l.reverse.find? (fun p => p.id == id)

/-- `p.apiKey || current?.apiKey || ""` for one merged entry. -/
def mergeApiKey (current : List Platform) (p : Platform) : String :=
  if p.apiKey ≠ "" then p.apiKey
  else match mapLookupLast current p.id with
    | some c => if c.apiKey ≠ "" then c.apiKey else ""
    | none => ""

/-- The merge `map` of `upsertGeminiPlatforms`: in submission order,
resolve each entry's credential and fail (status 400, naming the
platform id) at the first entry left with none. -/
def mergePlatforms (current : List Platform) : List Platform → Except AppError (List Platform)
  | [] => .ok []
  | p :: rest =>
    if mergeApiKey current p = "" then
      .error ⟨some 400,
        "platform " ++ p.id ++ ": 缺少 apiKey（新增平台必须填写，已有平台可留空表示不变）"⟩
    else
      match mergePlatforms current rest with
      | .error e => .error e
      | .ok tail => .ok (⟨p.id, p.baseUrl, p.model, mergeApiKey current p⟩ :: tail)

/-- `upsertGeminiPlatforms` with explicit store state: returns the
stored platform list after the call (written only on success, by the
single `saveConfig` at the end) and the call's outcome. -/
def upsertGeminiPlatforms (input : List RawPlatformInput) (cfg : List Platform) :
    List Platform × Except AppError (List RedactedPlatform) :=
  match coerceGeminiPlatforms input with
  | .error e => (cfg, .error e)
  | .ok next =>
    match mergePlatforms (getGeminiPlatforms cfg) next with
    | .error e => (cfg, .error e)
    | .ok merged => (merged, .ok (getGeminiPlatformsRedacted merged))

/-- C9: platform upsert is atomic with respect to failures — whenever
the call throws, the stored configuration is unchanged, so a
subsequent `list()` sees exactly what it saw before the failed
call. -/
theorem upsertGeminiPlatforms_atomic (input : List RawPlatformInput) (cfg : List Platform)
    (e : AppError) (h : (upsertGeminiPlatforms input cfg).2 = .error e) :
    (upsertGeminiPlatforms input cfg).1 = cfg ∧
    getGeminiPlatforms (upsertGeminiPlatforms input cfg).1 = getGeminiPlatforms cfg := by
  unfold upsertGeminiPlatforms at h ⊢
  cases hc : coerceGeminiPlatforms input with
  | error e' => simp [hc]
  | ok next =>
    cases hm : mergePlatforms (getGeminiPlatforms cfg) next with
    | error e' => simp [hc, hm]
    | ok merged =>
      rw [hc] at h
      simp only [hm] at h
      simp at h

/-- Witness instantiating the C9 theorem: a new id submitted without
a credential makes the upsert fail and leaves the store untouched. -/
theorem upsertGeminiPlatforms_atomic_witness :
    (upsertGeminiPlatforms [⟨some "x", some "u", some "m", some ""⟩] []).2 =
      .error ⟨some 400, "platform x: 缺少 apiKey（新增平台必须填写，已有平台可留空表示不变）"⟩ ∧
    ((upsertGeminiPlatforms [⟨some "x", some "u", some "m", some ""⟩] []).1 = [] ∧
      getGeminiPlatforms (upsertGeminiPlatforms [⟨some "x", some "u", some "m", some ""⟩] []).1 =
        getGeminiPlatforms []) :=
  ⟨by rfl, upsertGeminiPlatforms_atomic _ _ _ (by rfl)⟩

/-- The property claimed of stored base URLs: a single trailing
separator — the last character is `/` and the one before it is
not. -/
def endsWithExactlyOneSlash (s : String) : Prop :=
  s.data.getLast? = some '/' ∧ s.data.dropLast.getLast? ≠ some '/'

/-- C8 counterexample: a stored baseUrl `"x//"` already ends with a
slash, `normalizeBaseUrl` keeps it unchanged, and the listed platform
carries a baseUrl ending in *two* slashes. -/
theorem getGeminiPlatforms_trailing_counterexample :
    getGeminiPlatforms [⟨"a", "x//", "m", "k"⟩] = [⟨"a", "x//", "m", "k"⟩] ∧
    ¬ endsWithExactlyOneSlash "x//" := by
  constructor
  · rfl
  · unfold endsWithExactlyOneSlash
    decide

/-- C8 (amended): every baseUrl produced by `normalizeBaseUrl` (hence
every baseUrl listed by the registry) ends with at least one `/`; the
normalization appends a single `/` only when the value does not
already end with one, in which case the result ends with exactly one;
a value already carrying several trailing separators is kept as
is. -/
theorem normalizeBaseUrl_trailing_spec :
    (∀ v : String, (normalizeBaseUrl v).data.getLast? = some '/') ∧
    (∀ v : String, v.data.getLast? ≠ some '/' →
      normalizeBaseUrl v = v ++ "/" ∧ endsWithExactlyOneSlash (normalizeBaseUrl v)) ∧
    (∀ v : String, v.data.getLast? = some '/' → normalizeBaseUrl v = v) ∧
    (∀ cfg : List Platform, ∀ p ∈ getGeminiPlatforms cfg,
      p.baseUrl.data.getLast? = some '/') := by
  have hdata : ∀ v : String, (v ++ "/").data = v.data ++ ['/'] := by
    intro v
    rw [String.data_append]
  have hnorm : ∀ v : String, (normalizeBaseUrl v).data.getLast? = some '/' := by
    intro v
    unfold normalizeBaseUrl
    split
    · assumption
    · rw [hdata, List.getLast?_concat]
  refine ⟨hnorm, ?_, ?_, ?_⟩
  · intro v hv
    have heq : normalizeBaseUrl v = v ++ "/" := by
      unfold normalizeBaseUrl
      rw [if_neg hv]
    refine ⟨heq, hnorm v, ?_⟩
    rw [heq, hdata, List.dropLast_concat]
    exact hv
  · intro v hv
    unfold normalizeBaseUrl
    rw [if_pos hv]
  · intro cfg p hp
    simp only [getGeminiPlatforms, List.mem_filter, List.mem_map] at hp
    obtain ⟨⟨q, _, rfl⟩, _⟩ := hp
    exact hnorm q.baseUrl

/-- Witness instantiating the amended C8 theorem on a baseUrl with no
trailing separator. -/
theorem normalizeBaseUrl_trailing_spec_witness :
    ("http://x" : String).data.getLast? ≠ some '/' ∧
    (normalizeBaseUrl "http://x" = "http://x" ++ "/" ∧
      endsWithExactlyOneSlash (normalizeBaseUrl "http://x")) :=
  ⟨by decide, normalizeBaseUrl_trailing_spec.2.1 "http://x" (by decide)⟩

theorem getGeminiPlatforms_apiKey_ne (cfg : List Platform) :
    ∀ c ∈ getGeminiPlatforms cfg, c.apiKey ≠ "" := by
  intro c hc
  simp only [getGeminiPlatforms, List.mem_filter, Bool.and_eq_true, bne_iff_ne, ne_eq] at hc
  tauto

theorem mapLookupLast_mem {l : List Platform} {id : String} {c : Platform}
    (h : mapLookupLast l id = some c) : c ∈ l ∧ c.id = id := by
  unfold mapLookupLast at h
  have hmem := List.mem_of_find?_eq_some h
  have hid := List.find?_some h
  rw [List.mem_reverse] at hmem
  simp only [beq_iff_eq] at hid
  exact ⟨hmem, hid⟩

theorem mergePlatforms_ok_of_all (current : List Platform) :
    ∀ next : List Platform, (∀ p ∈ next, mergeApiKey current p ≠ "") →
      mergePlatforms current next =
        .ok (next.map (fun p => ⟨p.id, p.baseUrl, p.model, mergeApiKey current p⟩)) := by
  intro next
  induction next with
  | nil => intro _; rfl
  | cons p rest ih =>
    intro h
    have hp : mergeApiKey current p ≠ "" := h p (List.mem_cons_self p rest)
    have hrest := ih (fun q hq => h q (List.mem_cons_of_mem p hq))
    simp [mergePlatforms, hp, hrest]

theorem mergePlatforms_error_first (current : List Platform) :
    ∀ (next : List Platform) (q : Platform),
      next.find? (fun r => mergeApiKey current r == "") = some q →
      mergePlatforms current next =
        .error ⟨some 400,
          "platform " ++ q.id ++ ": 缺少 apiKey（新增平台必须填写，已有平台可留空表示不变）"⟩ := by
  intro next
  induction next with
  | nil => intro q h; simp at h
  | cons p rest ih =>
    intro q h
    rw [List.find?_cons] at h
    by_cases hp : mergeApiKey current p = ""
    · have : (mergeApiKey current p == "") = true := by simpa using hp
      rw [this] at h
      simp only [Option.some.injEq] at h
      subst h
      simp [mergePlatforms, hp]
    · have : (mergeApiKey current p == "") = false := by simpa using hp
      rw [this] at h
      have hrest := ih q h
      simp [mergePlatforms, hp, hrest]

/-- C6 counterexample: an entry submitted with the *empty string* as
baseUrl does not fail validation — `normalizeBaseUrl` turns `""` into
`"/"` before the emptiness check runs, so the upsert succeeds and
stores baseUrl `"/"`. -/
theorem upsert_empty_baseUrl_counterexample :
    (upsertGeminiPlatforms [⟨some "p1", some "", some "m", some "k"⟩] []).2 =
      .ok [⟨"p1", "/", "m", "********", true⟩] ∧
    (upsertGeminiPlatforms [⟨some "p1", some "", some "m", some "k"⟩] []).1 =
      [⟨"p1", "/", "m", "k"⟩] := by
  constructor
  · rfl
  · rfl

/-- C6 (amended): upsert fails with a validation error naming the
offending index whenever an entry's coerced model is empty (blank or
missing) or its baseUrl field is missing/not a string; an empty or
blank baseUrl *string* is normalized to `"/"` and accepted.  A
submitted entry whose effective credential resolves to empty (empty
after trim and no stored credential under its id) makes the call fail
with an error naming the first such entry's platform id.  When every
entry resolves a credential the merged store keeps, for each entry
that omitted its credential and whose id exists in the current store,
exactly the stored credential. -/
theorem upsertGeminiPlatforms_validation_spec (input : List RawPlatformInput)
    (cfg : List Platform) :
    (∀ idx, (h : idx < input.length) →
      ((coercePlatform (input.get ⟨idx, h⟩)).model = "" →
        ("platforms[" ++ toString idx ++ "].model 不能为空") ∈ validationErrors input) ∧
      ((coercePlatform (input.get ⟨idx, h⟩)).baseUrl = "" →
        ("platforms[" ++ toString idx ++ "].baseUrl 不能为空") ∈ validationErrors input)) ∧
    (∀ p : RawPlatformInput, ∀ s : String, p.baseUrl = some s →
      (coercePlatform p).baseUrl ≠ "") ∧
    (validationErrors input ≠ [] →
      (upsertGeminiPlatforms input cfg).2 =
        .error ⟨some 400, String.intercalate "; " (validationErrors input)⟩) ∧
    (∀ next : List Platform, coerceGeminiPlatforms input = .ok next →
      (∀ q : Platform,
        next.find? (fun r => mergeApiKey (getGeminiPlatforms cfg) r == "") = some q →
        (upsertGeminiPlatforms input cfg).2 =
          .error ⟨some 400,
            "platform " ++ q.id ++ ": 缺少 apiKey（新增平台必须填写，已有平台可留空表示不变）"⟩) ∧
      ((∀ p ∈ next, mergeApiKey (getGeminiPlatforms cfg) p ≠ "") →
        (upsertGeminiPlatforms input cfg).1 =
          next.map (fun p => ⟨p.id, p.baseUrl, p.model,
            mergeApiKey (getGeminiPlatforms cfg) p⟩)) ∧
      (∀ p ∈ next, p.apiKey = "" →
        ∀ c, mapLookupLast (getGeminiPlatforms cfg) p.id = some c →
          mergeApiKey (getGeminiPlatforms cfg) p = c.apiKey)) := by
  refine ⟨?_, ?_, ?_, ?_⟩
  · intro idx h
    have hmem : (idx, coercePlatform (input.get ⟨idx, h⟩)) ∈ (input.map coercePlatform).enum := by
      rw [List.mk_mem_enum_iff_getElem?]
      simp only [List.getElem?_map, List.get_eq_getElem, List.getElem?_eq_getElem h]
      rfl
    constructor
    · intro hm
      simp only [validationErrors, List.mem_flatten]
      refine ⟨(if (coercePlatform (input.get ⟨idx, h⟩)).baseUrl = ""
          then ["platforms[" ++ toString idx ++ "].baseUrl 不能为空"] else []) ++
        ["platforms[" ++ toString idx ++ "].model 不能为空"], ?_, by simp⟩
      refine List.mem_map.mpr ⟨(idx, coercePlatform (input.get ⟨idx, h⟩)), hmem, ?_⟩
      simp only [hm]
      simp
    · intro hb
      simp only [validationErrors, List.mem_flatten]
      refine ⟨["platforms[" ++ toString idx ++ "].baseUrl 不能为空"] ++
        (if (coercePlatform (input.get ⟨idx, h⟩)).model = ""
          then ["platforms[" ++ toString idx ++ "].model 不能为空"] else []), ?_, by simp⟩
      refine List.mem_map.mpr ⟨(idx, coercePlatform (input.get ⟨idx, h⟩)), hmem, ?_⟩
      simp only [hb]
      simp
  · intro p s hp
    simp only [coercePlatform, hp]
    unfold normalizeBaseUrl
    split
    · rename_i hlast
      intro hempty
      rw [hempty] at hlast
      simp at hlast
    · intro hempty
      have := congrArg String.data hempty
      rw [String.data_append] at this
      simp at this
  · intro hve
    unfold upsertGeminiPlatforms coerceGeminiPlatforms
    simp [hve]
  · intro next hnext
    refine ⟨?_, ?_, ?_⟩
    · intro q hq
      simp only [upsertGeminiPlatforms, hnext,
        mergePlatforms_error_first (getGeminiPlatforms cfg) next q hq]
    · intro hall
      simp only [upsertGeminiPlatforms, hnext,
        mergePlatforms_ok_of_all (getGeminiPlatforms cfg) next hall]
    · intro p _ hpk c hc
      obtain ⟨hcmem, _⟩ := mapLookupLast_mem hc
      have hcne : c.apiKey ≠ "" := getGeminiPlatforms_apiKey_ne cfg c hcmem
      unfold mergeApiKey
      rw [if_neg (by simp [hpk]), hc]
      simp [hcne]

/-- Witness instantiating the amended C6 theorem: one stored platform
`e1` with credential `"oldkey"`, an update that omits the credential
for `e1`, and a model-less second entry in a separate failing
call. -/
theorem upsertGeminiPlatforms_validation_spec_witness :
    (coerceGeminiPlatforms [⟨some "e1", some "u", some "m", some ""⟩] =
      .ok [⟨"e1", "u/", "m", ""⟩]) ∧
    ((⟨"e1", "u/", "m", ""⟩ : Platform) ∈ [(⟨"e1", "u/", "m", ""⟩ : Platform)]) ∧
    (Platform.apiKey ⟨"e1", "u/", "m", ""⟩ = "") ∧
    (mapLookupLast (getGeminiPlatforms [⟨"e1", "u/", "m", "oldkey"⟩]) "e1" =
      some ⟨"e1", "u/", "m", "oldkey"⟩) ∧
    mergeApiKey (getGeminiPlatforms [⟨"e1", "u/", "m", "oldkey"⟩]) ⟨"e1", "u/", "m", ""⟩ =
      "oldkey" := by
  refine ⟨by rfl, by simp, by rfl, by rfl, ?_⟩
  have h := (upsertGeminiPlatforms_validation_spec
      [⟨some "e1", some "u", some "m", some ""⟩] [⟨"e1", "u/", "m", "oldkey"⟩]).2.2.2
      [⟨"e1", "u/", "m", ""⟩] (by rfl)
  have h2 := h.2.2 ⟨"e1", "u/", "m", ""⟩ (by simp) (by rfl)
      ⟨"e1", "u/", "m", "oldkey"⟩ (by rfl)
  simpa using h2

/-! ### Health monitor (`src/server/monitor.js`) -/

/-- One monitor snapshot entry. -/
structure MonitorStatus where
  id : String
  baseUrl : String
  model : String
  checkedAt : String
  ok : Bool
  latencyMs : Nat
  errorMessage : Option String
deriving DecidableEq, Repr

/-- Outcome of `probePlatformGenerateImage`, as `checkOnce`
consumes it. -/
structure ProbeResult where
  ok : Bool
  latencyMs : Nat
  errorMessage : Option String
deriving DecidableEq, Repr

/-- `Map.set`: overwrite in place when the key exists (keeping its
position, as a JS `Map` does), append otherwise. -/
def mapSet : List (String × MonitorStatus) → String → MonitorStatus →
    List (String × MonitorStatus)
  | [], k, v => [(k, v)]
  | (k', v') :: rest, k, v =>
    if k' = k then (k, v) :: rest else (k', v') :: mapSet rest k v

/-- `Map.get` (first matching key; keys are unique by
construction). -/
def mapGet (st : List (String × MonitorStatus)) (k : String) : Option MonitorStatus :=
  (st.find? (fun e => e.1 == k)).map Prod.snd

/-- `GeminiMonitor.checkOnce` with the probe and the timestamp as
parameters: for each platform of the currently loaded configuration,
probe it and overwrite that platform's snapshot entry; return the new
snapshot map together with the list returned to the caller. -/
def checkOnce (probe : Platform → ProbeResult) (nowIso : String) :
    List Platform → List (String × MonitorStatus) →
    List (String × MonitorStatus) × List MonitorStatus
  | [], st => (st, [])
  | p :: rest, st =>
    let r := probe p
    let status : MonitorStatus :=
      ⟨p.id, p.baseUrl, p.model, nowIso, r.ok, r.latencyMs, r.errorMessage⟩
    let out := checkOnce probe nowIso rest (mapSet st p.id status)
    (out.1, status :: out.2)

/-- `GeminiMonitor.getStatusSnapshot`: the stored statuses sorted
ascending by platform id (`localeCompare` modelled as the code-point
order on strings). -/
def getStatusSnapshot (st : List (String × MonitorStatus)) : List MonitorStatus :=
  List.insertionSort (fun a b => a.id ≤ b.id) (st.map Prod.snd)

theorem mapGet_mapSet_ne (st : List (String × MonitorStatus)) (k k' : String)
    (v : MonitorStatus) (h : k' ≠ k) : mapGet (mapSet st k v) k' = mapGet st k' := by
  induction st with
  | nil =>
    simp only [mapSet, mapGet, List.find?]
    have : (k == k') = false := by simpa using fun he => h he.symm
    simp [this]
  | cons e rest ih =>
    by_cases he : e.1 = k
    · have hne : (k == k') = false := by simpa using fun h2 => h h2.symm
      have hne' : (e.1 == k') = false := by
        simp only [beq_eq_false_iff_ne, ne_eq]
        intro h2
        exact h (by rw [← h2, he])
      simp [mapSet, mapGet, he, List.find?, hne, hne']
    · cases e with
      | mk ek ev =>
        simp only at he
        simp only [mapSet, if_neg he, mapGet, List.find?_cons]
        by_cases hk' : ek = k'
        · simp [hk']
        · have : (ek == k') = false := by simpa using hk'
          simp only [this]
          exact ih

theorem mapGet_mapSet_self (st : List (String × MonitorStatus)) (k : String)
    (v : MonitorStatus) : mapGet (mapSet st k v) k = some v := by
  induction st with
  | nil => simp [mapSet, mapGet, List.find?]
  | cons e rest ih =>
    cases e with
    | mk ek ev =>
      by_cases he : ek = k
      · simp [mapSet, he, mapGet, List.find?]
      · have : (ek == k) = false := by simpa using he
        simp only [mapSet, if_neg he, mapGet, List.find?_cons, this]
        exact ih

theorem mapGet_mem {st : List (String × MonitorStatus)} {k : String} {v : MonitorStatus}
    (h : mapGet st k = some v) : v ∈ st.map Prod.snd := by
  unfold mapGet at h
  cases hf : st.find? (fun e => e.1 == k) with
  | none => rw [hf] at h; simp at h
  | some e =>
    rw [hf] at h
    have := List.mem_of_find?_eq_some hf
    exact List.mem_map.mpr ⟨e, this, by simpa using h⟩

theorem checkOnce_untouched (probe : Platform → ProbeResult) (nowIso : String) :
    ∀ (platforms : List Platform) (st : List (String × MonitorStatus)) (k : String),
      k ∉ platforms.map Platform.id →
      mapGet (checkOnce probe nowIso platforms st).1 k = mapGet st k := by
  intro platforms
  induction platforms with
  | nil => intro st k _; rfl
  | cons p rest ih =>
    intro st k hk
    simp only [List.map_cons, List.mem_cons] at hk
    push_neg at hk
    simp only [checkOnce]
    rw [ih _ k hk.2]
    exact mapGet_mapSet_ne st p.id k _ hk.1

theorem checkOnce_keeps (probe : Platform → ProbeResult) (nowIso : String) :
    ∀ (platforms : List Platform) (st : List (String × MonitorStatus)) (k : String),
      (mapGet st k).isSome = true →
      (mapGet (checkOnce probe nowIso platforms st).1 k).isSome = true := by
  intro platforms
  induction platforms with
  | nil => intro st k h; exact h
  | cons p rest ih =>
    intro st k h
    simp only [checkOnce]
    apply ih
    by_cases hk : k = p.id
    · subst hk
      rw [mapGet_mapSet_self]
      rfl
    · rw [mapGet_mapSet_ne st p.id k _ hk]
      exact h

/-- C10: `checkOnce` only touches the snapshot entries of platforms
present in the currently loaded configuration — entries under other
ids are left exactly as they were and no entry is ever removed — so a
platform removed from the configuration keeps its last recorded
status in every subsequent snapshot; and the snapshot is sorted
ascending by platform id. -/
theorem monitor_snapshot_spec (probe : Platform → ProbeResult) (nowIso : String)
    (platforms : List Platform) (st : List (String × MonitorStatus)) :
    (∀ k, k ∉ platforms.map Platform.id →
      mapGet (checkOnce probe nowIso platforms st).1 k = mapGet st k) ∧
    (∀ k, (mapGet st k).isSome = true →
      (mapGet (checkOnce probe nowIso platforms st).1 k).isSome = true) ∧
    (∀ k v, k ∉ platforms.map Platform.id → mapGet st k = some v →
      v ∈ getStatusSnapshot (checkOnce probe nowIso platforms st).1) ∧
    List.Sorted (fun a b => a.id ≤ b.id)
      (getStatusSnapshot (checkOnce probe nowIso platforms st).1) := by
  haveI htot : IsTotal MonitorStatus (fun a b => a.id ≤ b.id) :=
    ⟨fun a b => le_total a.id b.id⟩
  haveI htrans : IsTrans MonitorStatus (fun a b => a.id ≤ b.id) :=
    ⟨fun a b c hab hbc => le_trans hab hbc⟩
  refine ⟨checkOnce_untouched probe nowIso platforms st, checkOnce_keeps probe nowIso platforms st,
    ?_, List.sorted_insertionSort _ _⟩
  intro k v hk hv
  have h1 : mapGet (checkOnce probe nowIso platforms st).1 k = some v := by
    rw [checkOnce_untouched probe nowIso platforms st k hk]
    exact hv
  have h2 : v ∈ (checkOnce probe nowIso platforms st).1.map Prod.snd := mapGet_mem h1
  unfold getStatusSnapshot
  exact ((List.perm_insertionSort _ _).mem_iff).mpr h2

/-- A concrete probe and a stale snapshot entry for the C10
witness. -/
def demoProbe : Platform → ProbeResult := fun _ => ⟨true, 10, none⟩

/-- A snapshot entry for a platform id no longer configured. -/
def staleStatus : MonitorStatus := ⟨"old", "u/", "m", "t0", false, 5, some "gone"⟩

/-- Witness instantiating the C10 theorem: the entry of the removed
platform `old` survives `checkOnce` over `demoPlatforms` and appears
in the sorted snapshot. -/
theorem monitor_snapshot_spec_witness :
    ("old" ∉ demoPlatforms.map Platform.id) ∧
    mapGet [("old", staleStatus)] "old" = some staleStatus ∧
    staleStatus ∈ getStatusSnapshot
      (checkOnce demoProbe "t1" demoPlatforms [("old", staleStatus)]).1 :=
  ⟨by decide, by rfl,
    (monitor_snapshot_spec demoProbe "t1" demoPlatforms [("old", staleStatus)]).2.2.1
      "old" staleStatus (by decide) (by rfl)⟩

/-! ### HTTP route dispatch for the AI endpoints (server entry
file) -/

/-- The error thrown by the edit-image / generate-image routes when
`getGeminiPlatforms()` comes back empty. -/
def aiRouteNoPlatformsError : AppError :=
  ⟨some 400, "Gemini 未配置：请先在设置里添加平台/密钥/模型"⟩

/-- Body shared by the `/api/ai/gemini/edit-image` and
`/api/ai/gemini/generate-image` routes: optional login gate, then the
no-platforms guard, then the runner call. -/
def handleAiRoute {R : Type} (requireAuth loggedIn : Bool) (platforms : List Platform)
    (run : List Platform → Except AppError R) : Except AppError R :=
  if requireAuth ∧ ¬ loggedIn then .error ⟨some 401, "未登录"⟩
  else if platforms = [] then .error aiRouteNoPlatformsError
  else run platforms

/-- The server's catch-all error handler: HTTP status is the error's
`statusCode` when it carries a finite one, 500 otherwise. -/
def respondStatus {R : Type} (r : Except AppError R) : Nat :=
  match r with
  | .ok _ => 200
  | .error e => e.statusCode.getD 500

/-- C7 counterexample: invoking an AI route with no platforms
configured surfaces HTTP status 400, not 500. -/
theorem aiRoute_no_platforms_counterexample :
    respondStatus (handleAiRoute false true ([] : List Platform)
      (fun _ => .ok (0 : Nat))) = 400 ∧ (400 : Nat) ≠ 500 := by
  constructor
  · rfl
  · decide

/-- C7 (amended): when an AI route is invoked past its login gate
with no platforms configured, it fails with the configuration error
(`Gemini 未配置…`), which the error handler surfaces to the HTTP
caller with status 400. -/
theorem aiRoute_no_platforms_spec {R : Type} (requireAuth loggedIn : Bool)
    (run : List Platform → Except AppError R)
    (hauth : ¬ (requireAuth ∧ ¬ loggedIn)) :
    handleAiRoute requireAuth loggedIn [] run = .error aiRouteNoPlatformsError ∧
    respondStatus (handleAiRoute requireAuth loggedIn ([] : List Platform) run) = 400 ∧
    aiRouteNoPlatformsError.statusCode = some 400 := by
  have h : handleAiRoute requireAuth loggedIn ([] : List Platform) run =
      .error aiRouteNoPlatformsError := by
    unfold handleAiRoute
    rw [if_neg hauth, if_pos rfl]
  exact ⟨h, by rw [h]; rfl, rfl⟩

/-- Witness instantiating the amended C7 theorem with the login gate
satisfied. -/
theorem aiRoute_no_platforms_spec_witness :
    ¬ ((true : Bool) = true ∧ ¬ ((true : Bool) = true)) ∧
    (handleAiRoute true true [] (fun _ => .ok (0 : Nat)) = .error aiRouteNoPlatformsError ∧
      respondStatus (handleAiRoute true true ([] : List Platform)
        (fun _ => .ok (0 : Nat))) = 400 ∧
      aiRouteNoPlatformsError.statusCode = some 400) :=
  ⟨by simp, aiRoute_no_platforms_spec true true (fun _ => .ok (0 : Nat)) (by simp)⟩

end BananaPod
